import Mathlib

/-!
# Block I/O engine of the formic API server (`formicd/api.go`)

A shallow embedding of `apiServer.GetID`, `apiServer.Read`, `apiServer.Write` and
`apiServer.MkDir`.

Modelling conventions.

* Go `int64` values (`Offset`, `Size`, `blocksize`, `cur`, `firstOffset`, `sendSize`) are `Int`;
  `/` and `%` are Go's truncating operators (`Int.tdiv`, `Int.tmod`), and a zero divisor is a
  run-time panic.  Sums and products of `int64` values are taken without wrap-around.
* Go `uint64` values (`block`, inode numbers) are `Nat`; the conversion `uint64(x)` and the
  increment `block += 1` are taken modulo `2^64`, and `int64(block)` is the two's complement
  reading of the 64 bits.
* A `[]byte` is a `List Byte`; `nil` and the empty slice are both `[]`.  Slice expressions and
  `make` return `none` where Go panics.  A slice's capacity is taken equal to its length.
  The panic of `make` on a length above the run time's allocation limit (`maxAlloc`, `2^48`
  bytes) and memory exhaustion are not modelled; they arise only for a `Read` size or a block
  size beyond that limit.
* The chunk store (`FileService`) and the directory service (`DirService`) are interfaces of the
  server; they are records of state-passing functions over arbitrary state types.  Every call a
  handler makes on them is appended to a trace.
* `murmur3.New128` is an external library; its digest is the parameter `sum128`.
* The ID generator (`flother`) is an interface of the server as well: a state-passing `GetID`.
* `time.Now().Unix()` is the parameter `now`, indexed by the number of calls traced so far.
* Log statements are omitted.
-/

namespace Formic

abbrev Byte := Fin 256

/-- Error values a collaborator can return: `redis.ErrNil`, or any other error. -/
inductive Error where
  | ErrNil
  | transport (code : Nat)
deriving DecidableEq, Repr

/-- Chunk store interface used by the server: `GetChunk(id) ([]byte, error)` and
`WriteChunk(id, data) error`, over a store state `σ`. -/
structure FileService (σ : Type) where
  GetChunk : σ → List Byte → σ × List Byte × Option Error
  WriteChunk : σ → List Byte → List Byte → σ × Option Error

/-- Directory service interface, restricted to the call the block engine makes:
`Update(inode, block, blocksize, size, mtime)`, over a directory state `δ`. -/
structure DirService (δ : Type) where
  Update : δ → Nat → Nat → Nat → Nat → Int → δ

/-- The `apiServer` struct: collaborators and the configured block size. -/
structure apiServer (σ δ : Type) where
  ds : DirService δ
  fs : FileService σ
  blocksize : Int

/-- Calls made on the collaborators, with the values they returned. -/
inductive Event where
  | GetChunk (id : List Byte) (data : List Byte) (err : Option Error)
  | WriteChunk (id : List Byte) (data : List Byte) (err : Option Error)
  | Update (inode block blocksize size : Nat) (mtime : Int)
deriving DecidableEq, Repr

structure ReadRequest where
  Inode : Nat
  Offset : Int
  Size : Int
deriving DecidableEq, Repr

structure ReadResponse where
  Inode : Nat
  Payload : List Byte
deriving DecidableEq, Repr

structure WriteRequest where
  Inode : Nat
  Offset : Int
  Payload : List Byte
deriving DecidableEq, Repr

structure WriteResponse where
  Status : Nat
deriving DecidableEq, Repr

/-- How a handler invocation ends: it returns `(response, error)`, or the Go run time panics.
`outOfFuel` is the embedding's own outcome for a loop that exceeds its iteration bound. -/
inductive Outcome (α : Type) where
  | returned (resp : α) (err : Option Error)
  | panicked
  | outOfFuel
deriving DecidableEq, Repr

/-- Result of running a handler: outcome, final collaborator states, and the calls made. -/
structure Run (σ δ α : Type) where
  out : Outcome α
  fs : σ
  ds : δ
  trace : List Event

/-! ## Go primitives -/

/-- Conversion `uint64(x)` of an `int64`. -/
def toUint64 (x : Int) : Nat := (x % 18446744073709551616).toNat

/-- Conversion `int64(n)` of a `uint64`. -/
def toInt64 (n : Nat) : Int :=
  if n < 9223372036854775808 then (n : Int) else (n : Int) - 18446744073709551616

/-- Builtin `make([]byte, n)`: `n` zero bytes; panics on a negative length.  The run time also
panics on a length above its allocation limit `maxAlloc`; that limit is not part of this
function, and a statement about a length the client chooses (`Size` of a `Read`) carries the
bound `size ≤ maxAlloc` as a hypothesis. -/
def makeBytes (n : Int) : Option (List Byte) :=
  if 0 ≤ n then some (List.replicate n.toNat 0) else none

/-- The allocation limit `maxAlloc` of the Go run time on 64-bit platforms, `1 << 48` bytes:
`make([]byte, n)` panics for every `n` above it. -/
def maxAlloc : Nat := 281474976710656

/-- Slice expression `xs[lo:]`. -/
def sliceFrom (xs : List Byte) (lo : Int) : Option (List Byte) :=
  if 0 ≤ lo ∧ lo ≤ xs.length then some (xs.drop lo.toNat) else none

/-- Slice expression `xs[lo:hi]`. -/
def sliceRange (xs : List Byte) (lo hi : Int) : Option (List Byte) :=
  if 0 ≤ lo ∧ lo ≤ hi ∧ hi ≤ xs.length then some ((xs.take hi.toNat).drop lo.toNat) else none

/-- Builtin `copy(dst, src)`: the contents of `dst` afterwards. -/
def copy (dst src : List Byte) : List Byte :=
  src.take dst.length ++ dst.drop src.length

/-- Statement `copy(dst[lo:], src)`: the contents of `dst` afterwards; panics when `dst[lo:]`
does. -/
def copyInto (dst : List Byte) (lo : Int) (src : List Byte) : Option (List Byte) :=
  match sliceFrom dst lo with
  | none => none
  | some tail => some (dst.take lo.toNat ++ copy tail src)

/-- The function `min` of `api.go`. -/
def min (a b : Int) : Int :=
  if a < b then a else b

/-! ## Chunk keys -/

def byteOf (n : Nat) : Byte := ⟨n % 256, Nat.mod_lt n (by decide)⟩

/-- Encoding `binary.Write(w, binary.BigEndian, x)` of a `uint64`: eight bytes, most significant
first. -/
def be64 (x : Nat) : List Byte :=
  [byteOf (x / 72057594037927936), byteOf (x / 281474976710656), byteOf (x / 1099511627776),
   byteOf (x / 4294967296), byteOf (x / 16777216), byteOf (x / 65536), byteOf (x / 256),
   byteOf x]

/-- Method `apiServer.GetID`.  The hasher is the list of bytes written to it so far. -/
def GetID {σ δ : Type} (sum128 : List Byte → Nat × Nat) (_s : apiServer σ δ)
    (custID shareID inode block : Nat) : List Byte :=
  let h : List Byte := []
  let h := h ++ be64 custID
  let h := h ++ be64 shareID
  let h := h ++ be64 inode
  let h := h ++ be64 block
  let s12 := sum128 h
  let b : List Byte := []
  let b := b ++ be64 s12.1
  let b := b ++ be64 s12.2
  b

/-! ## Read -/

/-- The `for cur < r.Size` loop of `apiServer.Read` (lines 105-131) followed by the final
return (lines 132-133). -/
def Read.loop {σ δ : Type} (sum128 : List Byte → Nat × Nat) (s : apiServer σ δ)
    (r : ReadRequest) (dsS : δ) :
    Nat → Int → Nat → Int → List Byte → σ → List Event → Run σ δ ReadResponse
  | 0, _, _, _, _, fsS, tr => ⟨.outOfFuel, fsS, dsS, tr⟩
  | fuel + 1, cur, block, firstOffset, data, fsS, tr =>
    if cur < r.Size then
      let id := GetID sum128 s 1 1 r.Inode block
      let g := s.fs.GetChunk fsS id
      let fsS := g.1
      let chunk := g.2.1
      let err := g.2.2
      let tr := tr ++ [Event.GetChunk id chunk err]
      match err with
      | some e =>
        if e = Error.ErrNil then
          ⟨.returned ⟨0, []⟩ none, fsS, dsS, tr⟩
        else
          ⟨.returned ⟨0, []⟩ (some e), fsS, dsS, tr⟩
      | none =>
        if chunk.length = 0 then
          ⟨.returned ⟨r.Inode, data⟩ none, fsS, dsS, tr⟩
        else
          match sliceFrom data cur, sliceFrom chunk firstOffset with
          | some dst, some src =>
            let data := data.take cur.toNat ++ copy dst src
            let firstOffset := 0
            let block := (block + 1) % 18446744073709551616
            let cur := cur + (chunk.length : Int)
            if (chunk.length : Int) < s.blocksize then
              ⟨.returned ⟨r.Inode, data⟩ none, fsS, dsS, tr⟩
            else
              Read.loop sum128 s r dsS fuel cur block firstOffset data fsS tr
          | _, _ => ⟨.panicked, fsS, dsS, tr⟩
    else
      ⟨.returned ⟨r.Inode, data⟩ none, fsS, dsS, tr⟩

/-- Handler `apiServer.Read`. -/
def Read {σ δ : Type} (sum128 : List Byte → Nat × Nat) (s : apiServer σ δ)
    (fsS : σ) (dsS : δ) (r : ReadRequest) : Run σ δ ReadResponse :=
  if s.blocksize = 0 then ⟨.panicked, fsS, dsS, []⟩ else
  let block := toUint64 (r.Offset.tdiv s.blocksize)
  match makeBytes r.Size with
  | none => ⟨.panicked, fsS, dsS, []⟩
  | some data =>
    let firstOffset : Int :=
      if r.Offset.tmod s.blocksize ≠ 0 then r.Offset - toInt64 block * s.blocksize else 0
    Read.loop sum128 s r dsS (r.Size.toNat + 1) 0 block firstOffset data fsS []

/-! ## Write -/

/-- Lines 161-179 of `apiServer.Write`: the read-modify-write of an unaligned or short block.
The result is the buffer to store together with the new `firstOffset`, or `none` on a panic,
and the store state and trace after the `GetChunk` call, if one was made. -/
def Write.prepare {σ δ : Type} (s : apiServer σ δ) (id : List Byte) (firstOffset sendSize : Int)
    (payload : List Byte) (fsS : σ) (tr : List Event) :
    Option (List Byte × Int) × σ × List Event :=
  if firstOffset > 0 ∨ sendSize < s.blocksize then
    match makeBytes (firstOffset + (payload.length : Int)) with
    | none => (none, fsS, tr)
    | some chunk =>
      let g := s.fs.GetChunk fsS id
      let data := g.2.1
      let err := g.2.2
      let chunk :=
        if firstOffset > 0 ∧ (err ≠ none ∨ data.length = 0) then chunk
        else if data.length > chunk.length then data
        else copy chunk data
      match copyInto chunk firstOffset payload with
      | none => (none, g.1, tr ++ [Event.GetChunk id data err])
      | some chunk => (some (chunk, 0), g.1, tr ++ [Event.GetChunk id data err])
  else (some (payload, firstOffset), fsS, tr)

/-- The `for cur < int64(len(r.Payload))` loop of `apiServer.Write` (lines 154-189) followed by
the final return (line 190). -/
def Write.loop {σ δ : Type} (sum128 : List Byte → Nat × Nat) (now : Nat → Int)
    (s : apiServer σ δ) (r : WriteRequest) :
    Nat → Int → Nat → Int → σ → δ → List Event → Run σ δ WriteResponse
  | 0, _, _, _, fsS, dsS, tr => ⟨.outOfFuel, fsS, dsS, tr⟩
  | fuel + 1, cur, block, firstOffset, fsS, dsS, tr =>
    if cur < (r.Payload.length : Int) then
      let sendSize := min s.blocksize ((r.Payload.length : Int) - cur)
      let sendSize := if sendSize + firstOffset > s.blocksize then s.blocksize - firstOffset
        else sendSize
      match sliceRange r.Payload cur (cur + sendSize) with
      | none => ⟨.panicked, fsS, dsS, tr⟩
      | some payload =>
        let id := GetID sum128 s 1 1 r.Inode block
        match Write.prepare s id firstOffset sendSize payload fsS tr with
        | (none, fsS, tr) => ⟨.panicked, fsS, dsS, tr⟩
        | (some (payload, firstOffset), fsS, tr) =>
          let w := s.fs.WriteChunk fsS id payload
          let fsS := w.1
          let tr := tr ++ [Event.WriteChunk id payload w.2]
          match w.2 with
          | some err => ⟨.returned ⟨1⟩ (some err), fsS, dsS, tr⟩
          | none =>
            let ts := now tr.length
            let dsS := s.ds.Update dsS r.Inode block (toUint64 s.blocksize) payload.length ts
            let tr := tr ++ [Event.Update r.Inode block (toUint64 s.blocksize) payload.length ts]
            Write.loop sum128 now s r fuel (cur + sendSize)
              ((block + 1) % 18446744073709551616) firstOffset fsS dsS tr
    else
      ⟨.returned ⟨0⟩ none, fsS, dsS, tr⟩

/-- Handler `apiServer.Write`. -/
def Write {σ δ : Type} (sum128 : List Byte → Nat × Nat) (now : Nat → Int)
    (s : apiServer σ δ) (fsS : σ) (dsS : δ) (r : WriteRequest) : Run σ δ WriteResponse :=
  if s.blocksize = 0 then ⟨.panicked, fsS, dsS, []⟩ else
  let block := toUint64 (r.Offset.tdiv s.blocksize)
  let firstOffset : Int :=
    if r.Offset.tmod s.blocksize ≠ 0 then r.Offset - toInt64 block * s.blocksize else 0
  Write.loop sum128 now s r (r.Payload.length + 1) 0 block firstOffset fsS dsS []

/-! ## Collaborator models -/

/-- Contents of a chunk store: the blob held under each key, if any. -/
abbrev Store := List Byte → Option (List Byte)

/-- The store with no blob at all. -/
def emptyStore : Store := fun _ => none

/-- Store contents after a blob is put under `id`. -/
def Store.put (st : Store) (id data : List Byte) : Store :=
  fun k => if k = id then some data else st k

/-- A chunk store that is a faithful map: `GetChunk` returns the last blob written under the
key, or `redis.ErrNil` when there is none (the value the handlers test for), and `WriteChunk`
always succeeds. -/
def mapFS : FileService Store where
  GetChunk st id :=
    match st id with
    | some c => (st, c, none)
    | none => (st, [], some Error.ErrNil)
  WriteChunk st id data := (st.put id data, none)

/-- A faithful map with injected faults: the state counts the calls made so far, and call
number `i` fails with `fault i` when that is an error, leaving the contents as they were. -/
def faultyFS (fault : Nat → Option Error) : FileService (Store × Nat) where
  GetChunk st id :=
    match fault st.2 with
    | some e => ((st.1, st.2 + 1), [], some e)
    | none =>
      match st.1 id with
      | some c => ((st.1, st.2 + 1), c, none)
      | none => ((st.1, st.2 + 1), [], some Error.ErrNil)
  WriteChunk st id data :=
    match fault st.2 with
    | some e => ((st.1, st.2 + 1), some e)
    | none => ((st.1.put id data, st.2 + 1), none)

/-- The attribute record `pb.Attr`, with the fields `api.go` assigns. -/
structure Attr where
  Inode : Nat
  Atime : Int
  Mtime : Int
  Ctime : Int
  Crtime : Int
  Mode : Nat
  Size : Nat
  Uid : Nat
  Gid : Nat
deriving DecidableEq, Repr

/-- Contents of the directory service: the attributes of each existing inode. -/
abbrev Dir := Nat → Option Attr

/-- Modelled from the spec: the directory service's `Update(inode, block-index, blocksize,
written-bytes, ts)`, whose implementation is not part of `api.go`.  It "recomputes inode.size to
max(size, block-index × blocksize + written-bytes); updates mtime/ctime to ts", and leaves the
directory unchanged (`NOT_FOUND`) when the inode does not exist. -/
def specDS : DirService Dir where
  Update d inode block blocksize size ts :=
    match d inode with
    | none => d
    | some a =>
      fun i => if i = inode then
          some { a with Size := max a.Size (block * blocksize + size), Mtime := ts, Ctime := ts }
        else d i

/-- A directory service without state, for runs in which only the chunk store is observed. -/
def nullDS : DirService Unit where
  Update _ _ _ _ _ _ := ()

/-- Value of eight bytes read as a big-endian number. -/
def beValue (bs : List Byte) : Nat := bs.foldl (fun acc b => acc * 256 + b.val) 0

/-- A stand-in for the murmur3 digest in concrete runs: the third and fourth 8-byte words of the
input.  With it the key of `(1, 1, inode, block)` is the big-endian inode followed by the
big-endian block, so distinct `(inode, block)` pairs have distinct keys. -/
def wordsDigest (h : List Byte) : Nat × Nat :=
  (beValue ((h.drop 16).take 8), beValue ((h.drop 24).take 8))

/-- A server with the faithful map store, no directory state, and block size `B`. -/
def mapServer (B : Int) : apiServer Store Unit := ⟨nullDS, mapFS, B⟩

/-- The clock used in concrete runs. -/
def clock0 : Nat → Int := fun _ => 0

/-! ## Quantities of a write iteration -/

/-- Number of payload bytes an iteration of the write loop sends: block size `b`, intra-block
offset `f`, `rem` bytes of payload remaining. -/
def sendLen (b f rem : Nat) : Nat := if rem + f ≤ b then rem else b - f

/-- The buffer the read-modify-write branch of `Write` stores (lines 163-177), for an intra-block
offset `fo`, the payload slice, and the `(data, err)` returned by `GetChunk`. -/
def mergeChunk (fo : Nat) (payload data : List Byte) (err : Option Error) : List Byte :=
  let chunk0 : List Byte := List.replicate (fo + payload.length) 0
  let chunk :=
    if 0 < fo ∧ (err ≠ none ∨ data.length = 0) then chunk0
    else if data.length > chunk0.length then data
    else copy chunk0 data
  chunk.take fo ++ copy (chunk.drop fo) payload

/-! ## Concrete inputs and trace predicates -/

/-- Key of `(1, 1, inode, block)` under the stand-in digest. -/
def keyOf (inode block : Nat) : List Byte := GetID wordsDigest (mapServer 16) 1 1 inode block

/-- The twenty bytes "0123456789ABCDEFGHIJ". -/
def payload20 : List Byte :=
  [48, 49, 50, 51, 52, 53, 54, 55, 56, 57, 65, 66, 67, 68, 69, 70, 71, 72, 73, 74]

/-- A full block for block size 16: the bytes 1 to 16. -/
def block16 : List Byte := [1, 2, 3, 4, 5, 6, 7, 8, 9, 10, 11, 12, 13, 14, 15, 16]

/-- Fault schedule in which only call number `k` fails, with transport error 5. -/
def failAt (k : Nat) : Nat → Option Error :=
  fun i => if i = k then some (Error.transport 5) else none

/-- A server with the fault-injecting store, no directory state, and block size `B`. -/
def faultyServer (fault : Nat → Option Error) (B : Int) : apiServer (Store × Nat) Unit :=
  ⟨nullDS, faultyFS fault, B⟩

/-- No `GetChunk` call recorded in the trace returned an error. -/
def noGetError (tr : List Event) : Prop :=
  ∀ id d e, Event.GetChunk id d (some e) ∉ tr

/-- Every error a `Write` run returns is the one its last call, a `WriteChunk`, returned. -/
def Run.errFromWrite {σ δ : Type} (R : Run σ δ WriteResponse) : Prop :=
  ∀ resp e, R.out = .returned resp (some e) →
    ∃ id d, R.trace.getLast? = some (Event.WriteChunk id d (some e))

/-- Every error a `Read` run returns is the one its last call, a `GetChunk`, returned. -/
def Run.errFromGet {σ δ : Type} (R : Run σ δ ReadResponse) : Prop :=
  ∀ resp e, R.out = .returned resp (some e) →
    ∃ id d, R.trace.getLast? = some (Event.GetChunk id d (some e))

/-- A directory whose only inode is 7, a regular file of size 0. -/
def dir7 : Dir := fun i => if i = 7 then some ⟨7, 0, 0, 0, 0, 420, 0, 0, 0⟩ else none

/-- The chunks a write of `P` leaves in store contents `st`, following the iterations of the
write loop from payload position `c`, block `blk` and intra-block offset `f`: the chunk under
the key `K blk` carries the bytes sent by the iteration from position `f` on, and is exactly
one block long when the iteration sends a whole block. -/
def Stored (K : Nat → List Byte) (P : List Byte) (b : Nat) (st : Store) :
    Nat → Nat → Nat → Nat → Prop
  | 0, _, _, _ => True
  | fuel + 1, c, blk, f =>
    c < P.length →
      ∃ ch, st (K blk) = some ch ∧
        (P.drop c).take (sendLen b f (P.length - c)) <+: ch.drop f ∧
        (f = 0 → sendLen b f (P.length - c) = b → ch.length = b) ∧
        Stored K P b st fuel (c + sendLen b f (P.length - c)) (blk + 1) 0

/-- The five bytes "hello". -/
def hello : List Byte := [104, 101, 108, 108, 111]

/-- The successful `WriteChunk` calls of a trace, in order: key and data. -/
def writesOf (tr : List Event) : List (List Byte × List Byte) :=
  tr.filterMap fun ev =>
    match ev with
    | Event.WriteChunk id d none => some (id, d)
    | _ => none

/-- The failed `WriteChunk` calls of a trace, in order: key, data and error. -/
def failedWritesOf (tr : List Event) : List (List Byte × List Byte × Error) :=
  tr.filterMap fun ev =>
    match ev with
    | Event.WriteChunk id d (some e) => some (id, d, e)
    | _ => none

/-- The `Update` calls of a trace, in order: inode, block, block size and byte count. -/
def updatesOf (tr : List Event) : List (Nat × Nat × Nat × Nat) :=
  tr.filterMap fun ev =>
    match ev with
    | Event.Update inode block bs size _ => some (inode, block, bs, size)
    | _ => none

/-- The block index `k` increments of the `uint64` counter after `blk`. -/
def blockAfter : Nat → Nat → Nat
  | blk, 0 => blk
  | blk, k + 1 => blockAfter ((blk + 1) % 18446744073709551616) k

/-- The `WriteChunk` calls that store the buffers `cs` under the keys of consecutive blocks
starting at `blk`. -/
def blockWrites (K : Nat → List Byte) : Nat → List (List Byte) → List (List Byte × List Byte)
  | _, [] => []
  | blk, c :: cs => (K blk, c) :: blockWrites K ((blk + 1) % 18446744073709551616) cs

/-- The `Update` calls that report the buffers `cs` for consecutive blocks starting at `blk`. -/
def blockUpdates (inode bs : Nat) : Nat → List (List Byte) → List (Nat × Nat × Nat × Nat)
  | _, [] => []
  | blk, c :: cs =>
    (inode, blk, bs, c.length) :: blockUpdates inode bs ((blk + 1) % 18446744073709551616) cs

/-- Store contents after the given `(key, data)` pairs are put in order. -/
def Store.putAll (st : Store) (ws : List (List Byte × List Byte)) : Store :=
  ws.foldl (fun s kv => s.put kv.1 kv.2) st

/-- What a `Write` run that contains the failed call `WriteChunk(id, d) = e` looks like, for a run
`R` of the loop started at block `blk` with store contents `st` and trace `tr`: status 1 with
that error; the failed call is the last call and the only failed one; before it, buffers `cs`
were stored for the consecutive blocks from `blk` on, each followed by its `Update`; the failed
call is for the next block; and the store holds the prior contents with exactly those buffers
put. -/
def Run.abortedAt {δ : Type} (R : Run (Store × Nat) δ WriteResponse) (K : Nat → List Byte)
    (inode bs : Nat) (st : Store) (tr : List Event) (blk : Nat) : Prop :=
  ∀ id d e, Event.WriteChunk id d (some e) ∈ R.trace →
    ∃ cs : List (List Byte),
      R.out = .returned ⟨1⟩ (some e) ∧
      R.trace.getLast? = some (Event.WriteChunk id d (some e)) ∧
      failedWritesOf R.trace = [(id, d, e)] ∧
      id = K (blockAfter blk cs.length) ∧
      writesOf R.trace = writesOf tr ++ blockWrites K blk cs ∧
      updatesOf R.trace = updatesOf tr ++ blockUpdates inode bs blk cs ∧
      R.fs.1 = st.putAll (blockWrites K blk cs)

/-! ## MkDir -/

/-- The constant `os.ModeDir` of Go's standard library, `1 << 31`, as the `uint32` that
`uint32(os.ModeDir)` is. -/
def ModeDir : Nat := 2147483648

/-- The request `pb.MkDirRequest`.  `Attr` is a pointer field and may be nil. -/
structure MkDirRequest where
  Parent : Nat
  Name : String
  Attr : Option Attr
deriving DecidableEq, Repr

/-- The response `pb.MkDirResponse`. -/
structure MkDirResponse where
  Name : String
  Attr : Option Attr
deriving DecidableEq, Repr

/-- The ID generator the server holds in its field `fl`: `GetID() uint64`, over a generator
state `φ`. -/
structure IDGenerator (φ : Type) where
  GetID : φ → φ × Nat

/-- Directory service interface, restricted to the call `MkDir` makes:
`Create(parent, inode, name, attr, isdir) (string, *pb.Attr, error)`, over a directory state
`δ`. -/
structure DirCreator (δ : Type) where
  Create : δ → Nat → Nat → String → Attr → Bool → δ × String × Option Attr × Option Error

/-- A call of the directory service's `Create`, with its five arguments. -/
structure CreateCall where
  parent : Nat
  inode : Nat
  name : String
  attr : Attr
  isdir : Bool
deriving DecidableEq, Repr

/-- Result of running `MkDir`: outcome, final generator and directory states, and the `Create`
calls made. -/
structure MkDirRun (φ δ : Type) where
  out : Outcome MkDirResponse
  fl : φ
  ds : δ
  calls : List CreateCall

/-- Handler `apiServer.MkDir` (lines 77-92).  It uses the server's fields `fl` and `ds` only;
they are the parameters `fl` and `ds`.  Reading `r.Attr.Mode` through a nil `r.Attr` is a
run-time panic. -/
def MkDir {φ δ : Type} (now : Nat → Int) (fl : IDGenerator φ) (ds : DirCreator δ)
    (flS : φ) (dsS : δ) (r : MkDirRequest) : MkDirRun φ δ :=
  let ts := now 0
  let g := fl.GetID flS
  let inode := g.2
  match r.Attr with
  | none => ⟨.panicked, g.1, dsS, []⟩
  | some a =>
    let attr : Attr :=
      { Inode := inode, Atime := ts, Mtime := ts, Ctime := ts, Crtime := ts,
        Mode := ModeDir ||| a.Mode, Size := 0, Uid := a.Uid, Gid := a.Gid }
    let c := ds.Create dsS r.Parent inode r.Name attr true
    ⟨.returned ⟨c.2.1, c.2.2.1⟩ c.2.2.2, g.1, c.1, [⟨r.Parent, inode, r.Name, attr, true⟩]⟩

/-- An ID generator that hands out consecutive numbers. -/
def counterIDs : IDGenerator Nat where
  GetID n := (n + 1, n)

/-- A directory service whose state is the list of `Create` calls it has received, oldest
first; `Create` returns the name and attributes it was given. -/
def recordingCreator : DirCreator (List CreateCall) where
  Create calls parent inode name attr isdir :=
    (calls ++ [⟨parent, inode, name, attr, isdir⟩], name, some attr, none)

/-! ## Theorems -/

/-! ### Chunk keys -/

theorem beValue_be64 (x : Nat) : beValue (be64 x) = x % 18446744073709551616 := by
  simp only [beValue, be64, byteOf, List.foldl]
  omega

theorem GetID_wordsDigest {σ δ : Type} (s : apiServer σ δ) (inode block : Nat) :
    GetID wordsDigest s 1 1 inode block = be64 (inode % 18446744073709551616) ++
      be64 (block % 18446744073709551616) := by
  have h1 : wordsDigest (be64 1 ++ be64 1 ++ be64 inode ++ be64 block) =
      (beValue (be64 inode), beValue (be64 block)) := by
    simp [wordsDigest, be64]
  simp only [GetID, List.nil_append, h1, beValue_be64]

theorem be64_inj {x y : Nat} (hx : x < 18446744073709551616) (hy : y < 18446744073709551616)
    (h : be64 x = be64 y) : x = y := by
  have := congrArg beValue h
  rw [beValue_be64, beValue_be64, Nat.mod_eq_of_lt hx, Nat.mod_eq_of_lt hy] at this
  exact this

/-- Under the stand-in digest, distinct blocks of an inode have distinct keys. -/
theorem wordsDigest_keys {σ δ : Type} (s : apiServer σ δ) (inode b b' : Nat)
    (hb : b < 18446744073709551616) (hb' : b' < 18446744073709551616)
    (h : GetID wordsDigest s 1 1 inode b = GetID wordsDigest s 1 1 inode b') : b = b' := by
  rw [GetID_wordsDigest, GetID_wordsDigest] at h
  have h2 := List.append_inj_right h rfl
  rw [Nat.mod_eq_of_lt hb, Nat.mod_eq_of_lt hb'] at h2
  exact be64_inj hb hb' h2

/-! ### Errors come from the chunk store -/

theorem Write.loop_errFromWrite {σ δ : Type} (sum128 : List Byte → Nat × Nat)
    (now : Nat → Int) (s : apiServer σ δ) (r : WriteRequest) :
    ∀ (fuel : Nat) (cur : Int) (block : Nat) (fo : Int) (fsS : σ) (dsS : δ) (tr : List Event),
      (Write.loop sum128 now s r fuel cur block fo fsS dsS tr).errFromWrite := by
  intro fuel
  induction fuel with
  | zero =>
    intro cur block fo fsS dsS tr resp e h
    simp [Write.loop] at h
  | succ fuel ih =>
    intro cur block fo fsS dsS tr
    unfold Write.loop
    split
    · dsimp only
      split
      · intro resp e h; simp at h
      · split
        · intro resp e h; simp at h
        · split
          · rename_i err herr
            intro resp e h
            simp only [Outcome.returned.injEq, Option.some.injEq] at h
            obtain ⟨_, h⟩ := h
            subst h
            simp [herr]
          · exact ih _ _ _ _ _ _
    · intro resp e h; simp at h

theorem Read.loop_errFromGet {σ δ : Type} (sum128 : List Byte → Nat × Nat)
    (s : apiServer σ δ) (r : ReadRequest) (dsS : δ) :
    ∀ (fuel : Nat) (cur : Int) (block : Nat) (fo : Int) (data : List Byte) (fsS : σ)
      (tr : List Event),
      (Read.loop sum128 s r dsS fuel cur block fo data fsS tr).errFromGet := by
  intro fuel
  induction fuel with
  | zero =>
    intro cur block fo data fsS tr resp e h
    simp [Read.loop] at h
  | succ fuel ih =>
    intro cur block fo data fsS tr
    unfold Read.loop
    split
    · dsimp only
      split
      · rename_i e0 he0
        split
        · intro resp e h; simp at h
        · intro resp e h
          simp only [Outcome.returned.injEq, Option.some.injEq] at h
          obtain ⟨_, h⟩ := h
          subst h
          simp [he0]
      · split
        · intro resp e h; simp at h
        · split
          · split
            · intro resp e h; simp at h
            · apply ih
          · intro resp e h; simp at h
    · intro resp e h; simp at h

/-- A `GetChunk` call of the read loop that returns an error ends the loop: the response is
empty, the error is returned unless it is `redis.ErrNil`, and no further call is made. -/
theorem Read.loop_get_error {σ δ : Type} (sum128 : List Byte → Nat × Nat) (s : apiServer σ δ)
    (r : ReadRequest) (dsS : δ) (id : List Byte) (d : List Byte) (e : Error) :
    ∀ (fuel : Nat) (cur : Int) (block : Nat) (fo : Int) (data : List Byte) (fsS : σ)
      (tr : List Event), noGetError tr →
      Event.GetChunk id d (some e) ∈
        (Read.loop sum128 s r dsS fuel cur block fo data fsS tr).trace →
      (Read.loop sum128 s r dsS fuel cur block fo data fsS tr).out =
        .returned ⟨0, []⟩ (if e = Error.ErrNil then none else some e) ∧
      (Read.loop sum128 s r dsS fuel cur block fo data fsS tr).trace.getLast? =
        some (Event.GetChunk id d (some e)) := by
  intro fuel
  induction fuel with
  | zero =>
    intro cur block fo data fsS tr hno hmem
    simp only [Read.loop] at hmem
    exact absurd hmem (hno id d e)
  | succ fuel ih =>
    intro cur block fo data fsS tr hno hmem
    unfold Read.loop at hmem ⊢
    by_cases hc : cur < r.Size
    · simp only [hc, if_true] at hmem ⊢
      generalize s.fs.GetChunk fsS (GetID sum128 s 1 1 r.Inode block) = g at hmem ⊢
      obtain ⟨fs1, chunk, err⟩ := g
      cases err with
      | some e0 =>
        simp only at hmem ⊢
        by_cases he0 : e0 = Error.ErrNil
        · simp only [he0, if_true, List.mem_append, List.mem_singleton] at hmem ⊢
          rcases hmem with hmem | hmem
          · exact absurd hmem (hno id d e)
          · injection hmem with h1 h2 h3
            injection h3 with h3
            subst h1 h2 h3
            simp
        · simp only [he0, if_false, List.mem_append, List.mem_singleton] at hmem ⊢
          rcases hmem with hmem | hmem
          · exact absurd hmem (hno id d e)
          · injection hmem with h1 h2 h3
            injection h3 with h3
            subst h1 h2 h3
            simp [he0]
      | none =>
        simp only at hmem ⊢
        have hno' : noGetError
            (tr ++ [Event.GetChunk (GetID sum128 s 1 1 r.Inode block) chunk none]) := by
          intro id' d' e' hm
          simp only [List.mem_append, List.mem_singleton] at hm
          rcases hm with hm | hm
          · exact hno id' d' e' hm
          · injection hm with _ _ h3
            exact absurd h3 (by simp)
        by_cases hz : chunk.length = 0
        · simp only [hz, if_true] at hmem
          exact absurd hmem (hno' id d e)
        · simp only [hz, if_false] at hmem ⊢
          split at hmem
          · split at hmem
            · exact absurd hmem (hno' id d e)
            · rename_i hlt
              simp only [hlt, if_false]
              exact ih _ _ _ _ _ _ hno' hmem
          · exact absurd hmem (hno' id d e)
    · simp only [hc, if_false] at hmem
      exact absurd hmem (hno id d e)

/-! ### Write followed by Read across a block boundary -/

/-- C1: with block size 16 on an empty store, `Write(7, 10, "0123456789ABCDEFGHIJ")` returns
status 0, and the `Read(7, 10, 20)` that follows returns "012345", ten zero bytes, "6789": the
read cursor advanced by the chunk length 16 rather than by the 6 bytes copied.  The payload
returned is neither the payload written nor a prefix of it. -/
theorem Read_after_spanning_Write_misplaces_bytes :
    (Write wordsDigest clock0 (mapServer 16) emptyStore () ⟨7, 10, payload20⟩).out =
      .returned ⟨0⟩ none ∧
    (Read wordsDigest (mapServer 16)
        (Write wordsDigest clock0 (mapServer 16) emptyStore () ⟨7, 10, payload20⟩).fs ()
        ⟨7, 10, 20⟩).out =
      .returned ⟨7, [48, 49, 50, 51, 52, 53, 0, 0, 0, 0, 0, 0, 0, 0, 0, 0, 54, 55, 56, 57]⟩
        none ∧
    ¬ ([48, 49, 50, 51, 52, 53, 0, 0, 0, 0, 0, 0, 0, 0, 0, 0, 54, 55, 56, 57] <+: payload20) := by
  refine ⟨by decide, by decide, by decide⟩

/-! ### Unfolding the handlers -/

theorem Read_eq_loop {σ δ : Type} (sum128 : List Byte → Nat × Nat)
    (s : apiServer σ δ) (fsS : σ) (dsS : δ) (r : ReadRequest) (hB : s.blocksize ≠ 0)
    (hS : 0 ≤ r.Size) :
    Read sum128 s fsS dsS r =
      Read.loop sum128 s r dsS (r.Size.toNat + 1) 0 (toUint64 (r.Offset.tdiv s.blocksize))
        (if r.Offset.tmod s.blocksize ≠ 0 then
          r.Offset - toInt64 (toUint64 (r.Offset.tdiv s.blocksize)) * s.blocksize else 0)
        (List.replicate r.Size.toNat 0) fsS [] := by
  simp [Read, hB, makeBytes, hS]

theorem Write_eq_loop {σ δ : Type} (sum128 : List Byte → Nat × Nat) (now : Nat → Int)
    (s : apiServer σ δ) (fsS : σ) (dsS : δ) (r : WriteRequest) (hB : s.blocksize ≠ 0) :
    Write sum128 now s fsS dsS r =
      Write.loop sum128 now s r (r.Payload.length + 1) 0
        (toUint64 (r.Offset.tdiv s.blocksize))
        (if r.Offset.tmod s.blocksize ≠ 0 then
          r.Offset - toInt64 (toUint64 (r.Offset.tdiv s.blocksize)) * s.blocksize else 0)
        fsS dsS [] := by
  simp [Write, hB]

theorem Read.loop_trace_prefix {σ δ : Type} (sum128 : List Byte → Nat × Nat)
    (s : apiServer σ δ) (r : ReadRequest) (dsS : δ) :
    ∀ (fuel : Nat) (cur : Int) (block : Nat) (fo : Int) (data : List Byte) (fsS : σ)
      (tr : List Event),
      tr <+: (Read.loop sum128 s r dsS fuel cur block fo data fsS tr).trace := by
  intro fuel
  induction fuel with
  | zero =>
    intro cur block fo data fsS tr
    simp [Read.loop]
  | succ fuel ih =>
    intro cur block fo data fsS tr
    unfold Read.loop
    split
    · dsimp only
      split
      · split <;> simp
      · split
        · simp
        · split
          · split
            · simp
            · exact List.IsPrefix.trans (List.prefix_append _ _) (ih _ _ _ _ _ _)
          · simp
    · simp

/-- The first action of a read of positive size is a `GetChunk` call for the start block. -/
theorem Read_first_call {σ δ : Type} (sum128 : List Byte → Nat × Nat)
    (s : apiServer σ δ) (fsS : σ) (dsS : δ) (r : ReadRequest) (hB : s.blocksize ≠ 0)
    (hS : 0 < r.Size) :
    ∃ rest, (Read sum128 s fsS dsS r).trace =
      Event.GetChunk (GetID sum128 s 1 1 r.Inode (toUint64 (r.Offset.tdiv s.blocksize)))
        (s.fs.GetChunk fsS
          (GetID sum128 s 1 1 r.Inode (toUint64 (r.Offset.tdiv s.blocksize)))).2.1
        (s.fs.GetChunk fsS
          (GetID sum128 s 1 1 r.Inode (toUint64 (r.Offset.tdiv s.blocksize)))).2.2 :: rest := by
  rw [Read_eq_loop sum128 s fsS dsS r hB (le_of_lt hS)]
  have key : ∀ T : List Event,
      [Event.GetChunk (GetID sum128 s 1 1 r.Inode (toUint64 (r.Offset.tdiv s.blocksize)))
        (s.fs.GetChunk fsS
          (GetID sum128 s 1 1 r.Inode (toUint64 (r.Offset.tdiv s.blocksize)))).2.1
        (s.fs.GetChunk fsS
          (GetID sum128 s 1 1 r.Inode (toUint64 (r.Offset.tdiv s.blocksize)))).2.2] <+: T →
      ∃ rest, T = Event.GetChunk
        (GetID sum128 s 1 1 r.Inode (toUint64 (r.Offset.tdiv s.blocksize)))
        (s.fs.GetChunk fsS
          (GetID sum128 s 1 1 r.Inode (toUint64 (r.Offset.tdiv s.blocksize)))).2.1
        (s.fs.GetChunk fsS
          (GetID sum128 s 1 1 r.Inode (toUint64 (r.Offset.tdiv s.blocksize)))).2.2 :: rest := by
    rintro T ⟨t, rfl⟩
    exact ⟨t, rfl⟩
  apply key
  unfold Read.loop
  simp only [hS, if_true, List.nil_append]
  split
  · split <;> exact List.prefix_refl _
  · split
    · exact List.prefix_refl _
    · split
      · split
        · exact List.prefix_refl _
        · exact Read.loop_trace_prefix sum128 s r dsS _ _ _ _ _ _ _
      · exact List.prefix_refl _

/-! ### Read: absent blocks, transport errors, short chunks -/

/-- C4: with block size 16, block 0 of inode 7 holding a full 16-byte chunk and block 1 absent,
`Read(7, 0, 32)` fetches block 0, is told that block 1 is absent, and returns an empty response
with no error: the 16 bytes copied from block 0 are not in the returned payload. -/
theorem Read_absent_block_discards_copied_bytes :
    (Read wordsDigest (mapServer 16) (emptyStore.put (keyOf 7 0) block16) () ⟨7, 0, 32⟩).trace =
      [Event.GetChunk (keyOf 7 0) block16 none,
       Event.GetChunk (keyOf 7 1) [] (some Error.ErrNil)] ∧
    (Read wordsDigest (mapServer 16) (emptyStore.put (keyOf 7 0) block16) () ⟨7, 0, 32⟩).out =
      .returned ⟨0, []⟩ none := by
  refine ⟨by decide, by decide⟩

/-- C6 (counterexample): with block size 16 and block 0 holding a full chunk, a `Read(7, 0, 32)`
whose second `GetChunk` fails with a transport error returns that error with an empty
response; it does not return status ok with the 16 bytes read so far. -/
theorem Read_transport_error_after_copied_block :
    (Read wordsDigest (faultyServer (failAt 1) 16) (emptyStore.put (keyOf 7 0) block16, 0) ()
        ⟨7, 0, 32⟩).trace =
      [Event.GetChunk (keyOf 7 0) block16 none,
       Event.GetChunk (keyOf 7 1) [] (some (Error.transport 5))] ∧
    (Read wordsDigest (faultyServer (failAt 1) 16) (emptyStore.put (keyOf 7 0) block16, 0) ()
        ⟨7, 0, 32⟩).out = .returned ⟨0, []⟩ (some (Error.transport 5)) ∧
    ¬ ∃ resp, (Read wordsDigest (faultyServer (failAt 1) 16)
        (emptyStore.put (keyOf 7 0) block16, 0) () ⟨7, 0, 32⟩).out = .returned resp none := by
  refine ⟨by decide, by decide, ?_⟩
  rintro ⟨resp, h⟩
  have h2 : (Read wordsDigest (faultyServer (failAt 1) 16)
      (emptyStore.put (keyOf 7 0) block16, 0) () ⟨7, 0, 32⟩).out =
      .returned ⟨0, []⟩ (some (Error.transport 5)) := by decide
  rw [h2] at h
  simp at h

/-- C6 (amended): whenever a `GetChunk` call made by `Read` returns an error other than
`redis.ErrNil`, `Read` returns that error together with an empty response, whatever had been
copied before, and makes no further call. -/
theorem Read_transport_error_is_surfaced {σ δ : Type} (sum128 : List Byte → Nat × Nat)
    (s : apiServer σ δ) (fsS : σ) (dsS : δ) (r : ReadRequest) (id d : List Byte) (e : Error)
    (he : e ≠ Error.ErrNil)
    (hcall : Event.GetChunk id d (some e) ∈ (Read sum128 s fsS dsS r).trace) :
    (Read sum128 s fsS dsS r).out = .returned ⟨0, []⟩ (some e) ∧
    (Read sum128 s fsS dsS r).trace.getLast? = some (Event.GetChunk id d (some e)) := by
  by_cases hB : s.blocksize = 0
  · simp [Read, hB] at hcall
  · by_cases hS : 0 ≤ r.Size
    · rw [Read_eq_loop sum128 s fsS dsS r hB hS] at hcall ⊢
      have h := Read.loop_get_error sum128 s r dsS id d e _ _ _ _ _ _ []
        (fun _ _ _ hm => by simp at hm) hcall
      simpa [he] using h
    · simp [Read, hB, makeBytes, hS] at hcall

theorem Read_transport_error_is_surfaced_witness :
    (Read wordsDigest (faultyServer (failAt 1) 16) (emptyStore.put (keyOf 7 0) block16, 0) ()
        ⟨7, 0, 32⟩).out = .returned ⟨0, []⟩ (some (Error.transport 5)) ∧
    (Read wordsDigest (faultyServer (failAt 1) 16) (emptyStore.put (keyOf 7 0) block16, 0) ()
        ⟨7, 0, 32⟩).trace.getLast? =
      some (Event.GetChunk (keyOf 7 1) [] (some (Error.transport 5))) :=
  Read_transport_error_is_surfaced wordsDigest (faultyServer (failAt 1) 16)
    (emptyStore.put (keyOf 7 0) block16, 0) () ⟨7, 0, 32⟩ (keyOf 7 1) [] (Error.transport 5)
    (by decide) (by decide)

/-- C8: with block size 16 and block 0 of inode 7 holding a 1-byte chunk, `Read(7, 5, 1)`
evaluates `chunk[5:]` on that chunk and panics instead of returning zero bytes. -/
theorem Read_past_short_chunk_panics :
    (Read wordsDigest (mapServer 16) (emptyStore.put (keyOf 7 0) [1]) () ⟨7, 5, 1⟩).trace =
      [Event.GetChunk (keyOf 7 0) [1] none] ∧
    (Read wordsDigest (mapServer 16) (emptyStore.put (keyOf 7 0) [1]) () ⟨7, 5, 1⟩).out =
      .panicked := by
  refine ⟨by decide, by decide⟩

/-! ### Chunk key -/

/-- C9: `GetID` returns 16 bytes, the big-endian encodings of the two 64-bit halves of the digest
of the 32-byte concatenation of the big-endian encodings of its four arguments (`be64` being
the big-endian encoding: reading its bytes back gives the 64-bit value), and the result does
not depend on the server it is called on. -/
theorem GetID_is_pure_16_byte_key {σ δ σ' δ' : Type} (sum128 : List Byte → Nat × Nat)
    (s : apiServer σ δ) (s' : apiServer σ' δ') (custID shareID inode block : Nat) :
    (GetID sum128 s custID shareID inode block).length = 16 ∧
    (be64 custID ++ be64 shareID ++ be64 inode ++ be64 block).length = 32 ∧
    GetID sum128 s custID shareID inode block =
      be64 (sum128 (be64 custID ++ be64 shareID ++ be64 inode ++ be64 block)).1 ++
      be64 (sum128 (be64 custID ++ be64 shareID ++ be64 inode ++ be64 block)).2 ∧
    (∀ x, beValue (be64 x) = x % 18446744073709551616) ∧
    GetID sum128 s custID shareID inode block = GetID sum128 s' custID shareID inode block := by
  refine ⟨rfl, rfl, ?_, beValue_be64, rfl⟩
  simp [GetID]

/-! ### One iteration of the write loop -/

theorem sendLen_spec (b f rem : Nat) (hf : f < b) (hrem : 0 < rem) :
    0 < sendLen b f rem ∧ sendLen b f rem ≤ rem ∧ sendLen b f rem + f ≤ b ∧
    (sendLen b f rem + f = b ∨ sendLen b f rem = rem) := by
  unfold sendLen
  split <;> omega

theorem sendSize_eq {b f n c : Nat} (hf : f < b) (hc : c < n) :
    (if min (b : Int) ((n : Int) - (c : Int)) + (f : Int) > (b : Int) then (b : Int) - (f : Int)
      else min (b : Int) ((n : Int) - (c : Int))) = ((sendLen b f (n - c) : Nat) : Int) := by
  unfold min sendLen
  split_ifs <;> omega

theorem copy_length (dst src : List Byte) : (copy dst src).length = dst.length := by
  simp only [copy, List.length_append, List.length_take, List.length_drop]
  omega

theorem copy_of_le (dst src : List Byte) (h : src.length ≤ dst.length) :
    copy dst src = src ++ dst.drop src.length := by
  simp [copy, List.take_of_length_le h]

theorem sliceRange_eq (xs : List Byte) (c sz : Nat) (h : c + sz ≤ xs.length) :
    sliceRange xs (c : Int) ((c : Int) + (sz : Int)) = some ((xs.drop c).take sz) := by
  unfold sliceRange
  have h1 : (0 : Int) ≤ c ∧ (c : Int) ≤ (c : Int) + sz ∧ (c : Int) + sz ≤ xs.length := by omega
  rw [if_pos h1]
  have h2 : ((c : Int) + (sz : Int)).toNat = c + sz := by omega
  simp only [h2, Int.toNat_ofNat, List.drop_take, Nat.add_sub_cancel_left]

theorem copyInto_eq (dst : List Byte) (f : Nat) (src : List Byte) (h : f ≤ dst.length) :
    copyInto dst (f : Int) src = some (dst.take f ++ copy (dst.drop f) src) := by
  unfold copyInto sliceFrom
  have h1 : (0 : Int) ≤ f ∧ (f : Int) ≤ dst.length := by omega
  simp [h1]

theorem Write.prepare_eq {σ δ : Type} (s : apiServer σ δ) (id : List Byte) (f : Nat) (sz : Int)
    (payload : List Byte) (fsS : σ) (tr : List Event) :
    Write.prepare s id (f : Int) sz payload fsS tr =
      if 0 < f ∨ sz < s.blocksize then
        (some (mergeChunk f payload (s.fs.GetChunk fsS id).2.1 (s.fs.GetChunk fsS id).2.2, 0),
          (s.fs.GetChunk fsS id).1,
          tr ++ [Event.GetChunk id (s.fs.GetChunk fsS id).2.1 (s.fs.GetChunk fsS id).2.2])
      else (some (payload, 0), fsS, tr) := by
  unfold Write.prepare
  by_cases hr : 0 < f ∨ sz < s.blocksize
  · have hr' : (f : Int) > 0 ∨ sz < s.blocksize := by
      rcases hr with h | h
      · left; omega
      · right; exact h
    rw [if_pos hr', if_pos hr]
    have hm : makeBytes ((f : Int) + (payload.length : Int)) =
        some (List.replicate (f + payload.length) 0) := by
      unfold makeBytes
      have : (0 : Int) ≤ (f : Int) + payload.length := by omega
      rw [if_pos this]
      congr 2
    rw [hm]
    dsimp only
    have hfi : ((f : Int) > 0) ↔ (0 < f) := by omega
    simp only [hfi]
    have hlen : f ≤ (if 0 < f ∧ ((s.fs.GetChunk fsS id).2.2 ≠ none ∨
          (s.fs.GetChunk fsS id).2.1.length = 0) then List.replicate (f + payload.length) 0
        else if (s.fs.GetChunk fsS id).2.1.length >
            (List.replicate (f + payload.length) (0 : Byte)).length
          then (s.fs.GetChunk fsS id).2.1
        else copy (List.replicate (f + payload.length) 0) (s.fs.GetChunk fsS id).2.1).length := by
      split_ifs with h1 h2
      · simp
      · simp at h2; omega
      · simp [copy_length]
    rw [copyInto_eq _ _ _ hlen]
    rfl
  · have hr' : ¬ ((f : Int) > 0 ∨ sz < s.blocksize) := by
      intro h
      apply hr
      rcases h with h | h
      · left; omega
      · right; exact h
    rw [if_neg hr', if_neg hr]
    have : f = 0 := by omega
    subst this
    rfl

/-- The buffer a `copy(chunk[f:], p)` leaves, when `chunk` has room for `p` at offset `f`. -/
theorem overlay_eq (chunk p : List Byte) (f : Nat) (h : f + p.length ≤ chunk.length) :
    chunk.take f ++ copy (chunk.drop f) p =
      chunk.take f ++ (p ++ chunk.drop (f + p.length)) := by
  rw [copy_of_le _ _ (by simp; omega), List.drop_drop]

theorem mergeChunk_shape (f : Nat) (p d : List Byte) (e : Option Error) :
    ∃ chunk : List Byte, f + p.length ≤ chunk.length ∧
      mergeChunk f p d e = chunk.take f ++ (p ++ chunk.drop (f + p.length)) := by
  unfold mergeChunk
  dsimp only
  split_ifs with h1 h2
  · exact ⟨_, by simp, overlay_eq _ _ _ (by simp)⟩
  · simp at h2
    exact ⟨_, by omega, overlay_eq _ _ _ (by omega)⟩
  · exact ⟨_, by simp [copy_length], overlay_eq _ _ _ (by simp [copy_length])⟩

theorem mergeChunk_length_ge (f : Nat) (p d : List Byte) (e : Option Error) :
    f + p.length ≤ (mergeChunk f p d e).length := by
  obtain ⟨chunk, hl, heq⟩ := mergeChunk_shape f p d e
  rw [heq]
  simp only [List.length_append, List.length_take, List.length_drop]
  omega

theorem mergeChunk_drop (f : Nat) (p d : List Byte) (e : Option Error) :
    p <+: (mergeChunk f p d e).drop f := by
  obtain ⟨chunk, hl, heq⟩ := mergeChunk_shape f p d e
  rw [heq]
  have : (chunk.take f).length = f := by simp; omega
  rw [List.drop_append_of_le_length (by omega), List.drop_of_length_le (by omega)]
  simp

/-- One iteration of the write loop, when the block size is positive, the intra-block offset is
below it and payload remains: no slice expression panics, and the iteration sends
`sendLen b f (n - c)` bytes. -/
theorem Write.loop_succ {σ δ : Type} (sum128 : List Byte → Nat × Nat) (now : Nat → Int)
    (s : apiServer σ δ) (r : WriteRequest) (b f c : Nat) (hb : s.blocksize = (b : Int))
    (hf : f < b) (hc : c < r.Payload.length) (fuel blk : Nat) (fsS : σ) (dsS : δ)
    (tr : List Event) :
    Write.loop sum128 now s r (fuel + 1) (c : Int) blk (f : Int) fsS dsS tr =
      (let sz := sendLen b f (r.Payload.length - c)
       let payload := (r.Payload.drop c).take sz
       let id := GetID sum128 s 1 1 r.Inode blk
       let g := s.fs.GetChunk fsS id
       let buf := if 0 < f ∨ sz < b then mergeChunk f payload g.2.1 g.2.2 else payload
       let fs1 := if 0 < f ∨ sz < b then g.1 else fsS
       let tr1 := if 0 < f ∨ sz < b then tr ++ [Event.GetChunk id g.2.1 g.2.2] else tr
       let w := s.fs.WriteChunk fs1 id buf
       match w.2 with
       | some err =>
         ⟨.returned ⟨1⟩ (some err), w.1, dsS, tr1 ++ [Event.WriteChunk id buf w.2]⟩
       | none =>
         Write.loop sum128 now s r fuel ((c + sz : Nat) : Int)
           ((blk + 1) % 18446744073709551616) ((0 : Nat) : Int) w.1
           (s.ds.Update dsS r.Inode blk (toUint64 s.blocksize) buf.length
             (now (tr1 ++ [Event.WriteChunk id buf w.2]).length))
           (tr1 ++ [Event.WriteChunk id buf w.2] ++
             [Event.Update r.Inode blk (toUint64 s.blocksize) buf.length
               (now (tr1 ++ [Event.WriteChunk id buf w.2]).length)])) := by
  have hsp := sendLen_spec b f (r.Payload.length - c) hf (by omega)
  rw [Write.loop]
  have hcI : (c : Int) < (r.Payload.length : Int) := by omega
  rw [if_pos hcI]
  dsimp only
  rw [hb, sendSize_eq hf hc, sliceRange_eq _ _ _ (by omega)]
  dsimp only
  rw [Write.prepare_eq, hb]
  have hiff : ((sendLen b f (r.Payload.length - c) : Nat) : Int) < (b : Int) ↔
      sendLen b f (r.Payload.length - c) < b := by omega
  simp only [hiff]
  by_cases hr : 0 < f ∨ sendLen b f (r.Payload.length - c) < b
  · simp only [if_pos hr]
    split <;> simp_all
  · simp only [if_neg hr]
    split <;> simp_all

/-! ### Size after a write -/

theorem start_block (o b : Nat) (hb : 0 < b) (ho : o < 9223372036854775808) :
    toUint64 ((o : Int).tdiv (b : Int)) = o / b ∧
    (if (o : Int).tmod (b : Int) ≠ 0 then
      (o : Int) - toInt64 (toUint64 ((o : Int).tdiv (b : Int))) * (b : Int) else 0) =
      ((o % b : Nat) : Int) := by
  have h1 : (o : Int).tdiv (b : Int) = ((o / b : Nat) : Int) := by
    rw [Int.tdiv_eq_ediv (by omega) (by omega)]
    norm_cast
  have h2 : (o : Int).tmod (b : Int) = ((o % b : Nat) : Int) := by
    rw [Int.tmod_eq_emod (by omega) (by omega)]
    norm_cast
  have hle : o / b ≤ o := Nat.div_le_self o b
  have h3 : toUint64 ((o / b : Nat) : Int) = o / b := by
    unfold toUint64
    generalize o / b = q at hle
    omega
  have h4 : toInt64 (o / b) = ((o / b : Nat) : Int) := by
    unfold toInt64
    generalize o / b = q at hle
    rw [if_pos (by omega)]
  rw [h1, h2, h3, h4]
  refine ⟨rfl, ?_⟩
  have h5 := Nat.div_add_mod o b
  have h6 : ((o / b : Nat) : Int) * (b : Int) + ((o % b : Nat) : Int) = (o : Int) := by
    rw [mul_comm]
    exact_mod_cast h5
  split_ifs with h
  · omega
  · omega

theorem Write_eq_loop_nat {σ δ : Type} (sum128 : List Byte → Nat × Nat) (now : Nat → Int)
    (s : apiServer σ δ) (fsS : σ) (dsS : δ) (inode : Nat) (P : List Byte) (o b : Nat)
    (hb : 0 < b) (hs : s.blocksize = (b : Int)) (ho : o < 9223372036854775808) :
    Write sum128 now s fsS dsS ⟨inode, (o : Int), P⟩ =
      Write.loop sum128 now s ⟨inode, (o : Int), P⟩ (P.length + 1) ((0 : Nat) : Int) (o / b)
        ((o % b : Nat) : Int) fsS dsS [] := by
  rw [Write_eq_loop sum128 now s fsS dsS _ (by rw [hs]; omega)]
  dsimp only
  rw [hs, (start_block o b hb ho).2, (start_block o b hb ho).1]
  rfl

theorem Read_eq_loop_nat {σ δ : Type} (sum128 : List Byte → Nat × Nat)
    (s : apiServer σ δ) (fsS : σ) (dsS : δ) (inode : Nat) (n o b : Nat)
    (hb : 0 < b) (hs : s.blocksize = (b : Int)) (ho : o < 9223372036854775808) :
    Read sum128 s fsS dsS ⟨inode, (o : Int), (n : Int)⟩ =
      Read.loop sum128 s ⟨inode, (o : Int), (n : Int)⟩ dsS (n + 1) ((0 : Nat) : Int) (o / b)
        ((o % b : Nat) : Int) (List.replicate n 0) fsS [] := by
  rw [Read_eq_loop sum128 s fsS dsS _ (by rw [hs]; omega) (by simp)]
  dsimp only
  rw [hs, (start_block o b hb ho).2, (start_block o b hb ho).1]
  simp

theorem Write.loop_done {σ δ : Type} (sum128 : List Byte → Nat × Nat) (now : Nat → Int)
    (s : apiServer σ δ) (r : WriteRequest) (fuel : Nat) (cur : Int) (blk : Nat) (fo : Int)
    (fsS : σ) (dsS : δ) (tr : List Event) (h : ¬ cur < (r.Payload.length : Int)) :
    Write.loop sum128 now s r (fuel + 1) cur blk fo fsS dsS tr =
      ⟨.returned ⟨0⟩ none, fsS, dsS, tr⟩ := by
  rw [Write.loop, if_neg h]

theorem slice_length (P : List Byte) (c sz : Nat) (h : c + sz ≤ P.length) :
    ((P.drop c).take sz).length = sz := by
  simp only [List.length_take, List.length_drop]
  omega

/-- The buffer an iteration stores is at least as long as the intra-block offset plus the bytes
sent. -/
theorem buffer_length_ge (f sz b : Nat) (payload d : List Byte) (e : Option Error)
    (hp : payload.length = sz) :
    f + sz ≤ (if 0 < f ∨ sz < b then mergeChunk f payload d e else payload).length := by
  split_ifs with h
  · have := mergeChunk_length_ge f payload d e
    omega
  · omega

theorem specDS_Update_size (d : Dir) (inode blk bs len : Nat) (ts : Int) (a : Attr)
    (ha : d inode = some a) :
    ∃ a1, specDS.Update d inode blk bs len ts inode = some a1 ∧
      a1.Size = max a.Size (blk * bs + len) := by
  refine ⟨{ a with Size := max a.Size (blk * bs + len), Mtime := ts, Ctime := ts }, ?_, rfl⟩
  simp [specDS, ha]

theorem toUint64_cast (b : Nat) (hb : b < 18446744073709551616) : toUint64 (b : Int) = b := by
  unfold toUint64
  omega

theorem Write.loop_size {σ : Type} (sum128 : List Byte → Nat × Nat) (now : Nat → Int)
    (fs : FileService σ) (b : Nat) (hb : 0 < b) (hb2 : b < 18446744073709551616)
    (inode o : Nat) (P : List Byte) :
    ∀ (fuel c blk f : Nat) (fsS : σ) (d : Dir) (tr : List Event) (a : Attr),
      d inode = some a → f < b → c ≤ P.length → (c < P.length → blk * b + f = o + c) →
      blk + (P.length - c) < 18446744073709551616 →
      (Write.loop sum128 now ⟨specDS, fs, (b : Int)⟩ ⟨inode, (o : Int), P⟩ fuel (c : Int) blk
        (f : Int) fsS d tr).out = .returned ⟨0⟩ none →
      ∃ a', (Write.loop sum128 now ⟨specDS, fs, (b : Int)⟩ ⟨inode, (o : Int), P⟩ fuel (c : Int) blk
          (f : Int) fsS d tr).ds inode = some a' ∧
        a.Size ≤ a'.Size ∧ (c < P.length → o + P.length ≤ a'.Size) := by
  intro fuel
  induction fuel with
  | zero =>
    intro c blk f fsS d tr a ha hf hc hblk hwrap hout
    simp [Write.loop] at hout
  | succ fuel ih =>
    intro c blk f fsS d tr a ha hf hc hblk hwrap hout
    by_cases hlt : c < P.length
    · have hsp := sendLen_spec b f (P.length - c) hf (by omega)
      rw [Write.loop_succ sum128 now _ _ b f c rfl hf hlt] at hout ⊢
      dsimp only at hout ⊢
      generalize hsz : sendLen b f (P.length - c) = sz at hout hsp ⊢
      generalize hg : fs.GetChunk fsS (GetID sum128 (⟨specDS, fs, (b : Int)⟩ : apiServer σ Dir)
        1 1 inode blk) = g at hout ⊢
      have hbuf := buffer_length_ge f sz b ((P.drop c).take sz) g.2.1 g.2.2
        (slice_length P c sz (by omega))
      generalize (if 0 < f ∨ sz < b then mergeChunk f ((P.drop c).take sz) g.2.1 g.2.2
        else (P.drop c).take sz) = buf at hout hbuf ⊢
      generalize (if 0 < f ∨ sz < b then g.1 else fsS) = fs1 at hout ⊢
      generalize (if 0 < f ∨ sz < b then tr ++ [Event.GetChunk
        (GetID sum128 (⟨specDS, fs, (b : Int)⟩ : apiServer σ Dir) 1 1 inode blk) g.2.1 g.2.2]
        else tr) = tr1 at hout ⊢
      generalize hw : fs.WriteChunk fs1 (GetID sum128 (⟨specDS, fs, (b : Int)⟩ : apiServer σ Dir)
        1 1 inode blk) buf = w at hout ⊢
      obtain ⟨w1, w2⟩ := w
      cases w2 with
      | some err => simp at hout
      | none =>
        dsimp only at hout ⊢
        rw [toUint64_cast b hb2] at hout ⊢
        obtain ⟨a1, ha1, hsize⟩ := specDS_Update_size d inode blk b buf.length
          (now (tr1 ++ [Event.WriteChunk (GetID sum128
            (⟨specDS, fs, (b : Int)⟩ : apiServer σ Dir) 1 1 inode blk) buf none]).length) a ha
        have hblk1 : (blk + 1) % 18446744073709551616 = blk + 1 := by omega
        rw [hblk1] at hout ⊢
        have hmul : (blk + 1) * b = blk * b + b := by ring
        obtain ⟨a', ha', hle, hfin⟩ := ih (c + sz) (blk + 1) 0 w1 _ _ a1 ha1 hb (by omega)
          (by intro h; have := hblk hlt; omega) (by omega) hout
        refine ⟨a', ha', by omega, ?_⟩
        intro _
        have := hblk hlt
        by_cases hend : c + sz < P.length
        · exact hfin hend
        · omega
    · have hnot : ¬ (c : Int) < ((P.length : Nat) : Int) := by omega
      rw [Write.loop_done sum128 now _ _ _ _ _ _ _ _ _ hnot]
      exact ⟨a, ha, le_refl _, fun h => absurd h hlt⟩

/-- C3 (counterexample): with block size 16, `Write(7, 100, [])` on the existing inode 7 of size
0 returns status 0 and leaves the size at 0, below `o + n = 100`. -/
theorem Write_empty_payload_leaves_size :
    (Write wordsDigest clock0 ⟨specDS, mapFS, 16⟩ emptyStore dir7 ⟨7, 100, []⟩).out =
      .returned ⟨0⟩ none ∧
    ((Write wordsDigest clock0 ⟨specDS, mapFS, 16⟩ emptyStore dir7 ⟨7, 100, []⟩).ds 7).map
      Attr.Size = some 0 := by
  refine ⟨by decide, by decide⟩

/-- C3 (amended): for an existing inode, an offset `o ≥ 0` and a non-empty payload of length `n`,
whatever the chunk store does, if `Write` returns status 0 then the size of the inode in the
directory service is at least `o + n` afterwards. -/
theorem Write_size_covers_nonempty_payload {σ : Type} (sum128 : List Byte → Nat × Nat)
    (now : Nat → Int) (fs : FileService σ) (fsS : σ) (B : Int) (hB : 0 < B)
    (hB2 : B < 9223372036854775808) (d : Dir) (inode : Nat) (a : Attr) (ha : d inode = some a)
    (off : Int) (hoff : 0 ≤ off) (hoff2 : off < 9223372036854775808) (P : List Byte)
    (hP : P ≠ []) (hlen : P.length < 9223372036854775808)
    (hok : (Write sum128 now ⟨specDS, fs, B⟩ fsS d ⟨inode, off, P⟩).out = .returned ⟨0⟩ none) :
    ∃ a', (Write sum128 now ⟨specDS, fs, B⟩ fsS d ⟨inode, off, P⟩).ds inode = some a' ∧
      off + (P.length : Int) ≤ (a'.Size : Int) := by
  obtain ⟨o, rfl⟩ := Int.eq_ofNat_of_zero_le hoff
  obtain ⟨b, rfl⟩ := Int.eq_ofNat_of_zero_le (le_of_lt hB)
  have hb : 0 < b := by omega
  have ho : o < 9223372036854775808 := by omega
  have hpos : 0 < P.length := List.length_pos.mpr hP
  rw [Write_eq_loop_nat sum128 now _ fsS d inode P o b hb rfl ho] at hok ⊢
  have hdiv := Nat.div_add_mod o b
  have hle : o / b ≤ o := Nat.div_le_self o b
  obtain ⟨a', ha', _, hfin⟩ := Write.loop_size sum128 now fs b hb (by omega) inode o P
    (P.length + 1) 0 (o / b) (o % b) fsS d [] a ha (Nat.mod_lt o hb) (by omega)
    (by intro _; rw [mul_comm]; omega) (by omega) hok
  refine ⟨a', ha', ?_⟩
  have := hfin hpos
  omega

theorem Write_size_covers_nonempty_payload_witness :
    ∃ a', (Write wordsDigest clock0 ⟨specDS, mapFS, 16⟩ emptyStore dir7 ⟨7, 10, payload20⟩).ds 7 =
        some a' ∧ (10 : Int) + (payload20.length : Int) ≤ (a'.Size : Int) :=
  Write_size_covers_nonempty_payload wordsDigest clock0 mapFS emptyStore 16 (by decide)
    (by decide) dir7 7 ⟨7, 0, 0, 0, 0, 420, 0, 0, 0⟩ (by decide) 10 (by decide) (by decide)
    payload20 (by decide) (by decide) (by decide)

/-! ### Chunks left by a write on the faithful map store -/

theorem mapFS_GetChunk_fst (st : Store) (id : List Byte) : (mapFS.GetChunk st id).1 = st := by
  unfold mapFS
  dsimp only
  split <;> rfl

/-- On the faithful map store the write loop returns status 0 and changes only the keys of the
blocks from `blk` on. -/
theorem Write.loop_map_frame {δ : Type} (sum128 : List Byte → Nat × Nat) (now : Nat → Int)
    (ds : DirService δ) (b : Nat) (inode : Nat) (off : Int) (P : List Byte) :
    ∀ (fuel c blk f : Nat) (st : Store) (dsS : δ) (tr : List Event),
      f < b → c ≤ P.length → P.length - c < fuel →
      blk + (P.length - c) < 18446744073709551616 →
      (Write.loop sum128 now ⟨ds, mapFS, (b : Int)⟩ ⟨inode, off, P⟩ fuel (c : Int) blk (f : Int)
        st dsS tr).out = .returned ⟨0⟩ none ∧
      ∀ key, (∀ j, j < P.length - c →
          key ≠ GetID sum128 (⟨ds, mapFS, (b : Int)⟩ : apiServer Store δ) 1 1 inode (blk + j)) →
        (Write.loop sum128 now ⟨ds, mapFS, (b : Int)⟩ ⟨inode, off, P⟩ fuel (c : Int) blk
          (f : Int) st dsS tr).fs key = st key := by
  intro fuel
  induction fuel with
  | zero =>
    intro c blk f st dsS tr hf hc hfuel hwrap
    omega
  | succ fuel ih =>
    intro c blk f st dsS tr hf hc hfuel hwrap
    by_cases hlt : c < P.length
    · have hsp := sendLen_spec b f (P.length - c) hf (by omega)
      rw [Write.loop_succ sum128 now _ _ b f c rfl hf hlt]
      dsimp only
      generalize hsz : sendLen b f (P.length - c) = sz at hsp ⊢
      simp only [mapFS_GetChunk_fst, ite_self]
      have hw : ∀ buf, mapFS.WriteChunk st (GetID sum128
          (⟨ds, mapFS, (b : Int)⟩ : apiServer Store δ) 1 1 inode blk) buf =
          (st.put (GetID sum128 (⟨ds, mapFS, (b : Int)⟩ : apiServer Store δ) 1 1 inode blk) buf,
            none) := fun _ => rfl
      simp only [hw]
      have hblk1 : (blk + 1) % 18446744073709551616 = blk + 1 := by omega
      rw [hblk1]
      obtain ⟨hout, hframe⟩ := ih (c + sz) (blk + 1) 0 (st.put (GetID sum128
          (⟨ds, mapFS, (b : Int)⟩ : apiServer Store δ) 1 1 inode blk) _) _ _
          (by omega) (by omega) (by omega) (by omega)
      refine ⟨hout, ?_⟩
      intro key hkey
      rw [hframe key]
      · have h0 := hkey 0 (by omega)
        simp only [Nat.add_zero] at h0
        simp [Store.put, h0]
      · intro j hj
        have := hkey (1 + j) (by omega)
        rwa [← Nat.add_assoc] at this
    · have hnot : ¬ (c : Int) < ((P.length : Nat) : Int) := by omega
      rw [Write.loop_done sum128 now _ _ _ _ _ _ _ _ _ hnot]
      exact ⟨rfl, fun _ _ => rfl⟩

/-- The buffer an iteration stores carries the payload slice from the intra-block offset on. -/
theorem buffer_prefix (f sz b : Nat) (payload d : List Byte) (e : Option Error)
    (hdirect : ¬ (0 < f ∨ sz < b) → f = 0) :
    payload <+: (if 0 < f ∨ sz < b then mergeChunk f payload d e else payload).drop f := by
  split_ifs with h
  · exact mergeChunk_drop f payload d e
  · rw [hdirect h]
    exact List.prefix_refl _

/-- On the faithful map store, with distinct keys for the blocks of the inode, the write loop
leaves the chunks described by `Stored`. -/
theorem Write.loop_map_stored {δ : Type} (sum128 : List Byte → Nat × Nat) (now : Nat → Int)
    (ds : DirService δ) (b : Nat) (inode : Nat) (off : Int) (P : List Byte)
    (hkeys : ∀ x y, x < 18446744073709551616 → y < 18446744073709551616 →
      GetID sum128 (⟨ds, mapFS, (b : Int)⟩ : apiServer Store δ) 1 1 inode x =
        GetID sum128 (⟨ds, mapFS, (b : Int)⟩ : apiServer Store δ) 1 1 inode y → x = y) :
    ∀ (fuel c blk f : Nat) (st : Store) (dsS : δ) (tr : List Event),
      f < b → c ≤ P.length → P.length - c < fuel →
      blk + (P.length - c) < 18446744073709551616 →
      Stored (GetID sum128 (⟨ds, mapFS, (b : Int)⟩ : apiServer Store δ) 1 1 inode) P b
        (Write.loop sum128 now ⟨ds, mapFS, (b : Int)⟩ ⟨inode, off, P⟩ fuel (c : Int) blk (f : Int)
          st dsS tr).fs fuel c blk f := by
  intro fuel
  induction fuel with
  | zero =>
    intro c blk f st dsS tr hf hc hfuel hwrap
    omega
  | succ fuel ih =>
    intro c blk f st dsS tr hf hc hfuel hwrap
    unfold Stored
    intro hlt
    have hsp := sendLen_spec b f (P.length - c) hf (by omega)
    rw [Write.loop_succ sum128 now _ _ b f c rfl hf hlt]
    dsimp only
    generalize hsz : sendLen b f (P.length - c) = sz at hsp ⊢
    simp only [mapFS_GetChunk_fst, ite_self]
    have hw : ∀ buf, mapFS.WriteChunk st (GetID sum128
        (⟨ds, mapFS, (b : Int)⟩ : apiServer Store δ) 1 1 inode blk) buf =
        (st.put (GetID sum128 (⟨ds, mapFS, (b : Int)⟩ : apiServer Store δ) 1 1 inode blk) buf,
          none) := fun _ => rfl
    simp only [hw]
    have hblk1 : (blk + 1) % 18446744073709551616 = blk + 1 := by omega
    rw [hblk1]
    have hpre := buffer_prefix f sz b ((P.drop c).take sz)
      (mapFS.GetChunk st (GetID sum128 (⟨ds, mapFS, (b : Int)⟩ : apiServer Store δ)
        1 1 inode blk)).2.1
      (mapFS.GetChunk st (GetID sum128 (⟨ds, mapFS, (b : Int)⟩ : apiServer Store δ)
        1 1 inode blk)).2.2 (by intro h; omega)
    have hfull : f = 0 → sz = b →
        (if 0 < f ∨ sz < b then mergeChunk f ((P.drop c).take sz)
          (mapFS.GetChunk st (GetID sum128 (⟨ds, mapFS, (b : Int)⟩ : apiServer Store δ)
            1 1 inode blk)).2.1
          (mapFS.GetChunk st (GetID sum128 (⟨ds, mapFS, (b : Int)⟩ : apiServer Store δ)
            1 1 inode blk)).2.2 else (P.drop c).take sz).length = b := by
      intro h1 h2
      rw [if_neg (by omega), slice_length P c sz (by omega)]
      exact h2
    generalize (if 0 < f ∨ sz < b then mergeChunk f ((P.drop c).take sz)
          (mapFS.GetChunk st (GetID sum128 (⟨ds, mapFS, (b : Int)⟩ : apiServer Store δ)
            1 1 inode blk)).2.1
          (mapFS.GetChunk st (GetID sum128 (⟨ds, mapFS, (b : Int)⟩ : apiServer Store δ)
            1 1 inode blk)).2.2 else (P.drop c).take sz) = buf at hpre hfull ⊢
    refine ⟨buf, ?_, hpre, hfull, ih (c + sz) (blk + 1) 0 _ _ _ (by omega) (by omega) (by omega)
      (by omega)⟩
    rw [(Write.loop_map_frame sum128 now ds b inode off P fuel (c + sz) (blk + 1) 0 _ _ _
      (by omega) (by omega) (by omega) (by omega)).2]
    · simp [Store.put]
    · intro j hj heq
      have := hkeys blk (blk + 1 + j) (by omega) (by omega) heq
      omega

/-! ### Chunk contents after a write -/

theorem div_mod_of_eq {x q r b : Nat} (h : x = q * b + r) (hr : r < b) :
    x / b = q ∧ x % b = r := by
  subst h
  constructor
  · rw [Nat.add_comm, Nat.add_mul_div_right _ _ (by omega), Nat.div_eq_of_lt hr, Nat.zero_add]
  · rw [Nat.add_comm, Nat.add_mul_mod_self_right, Nat.mod_eq_of_lt hr]

/-- A chunk that carries the slice `P[c : c+sz]` from offset `f` on has, at offset `f + k`, the
payload byte `P[c + k]`. -/
theorem prefix_drop_get (P ch : List Byte) (c sz f k : Nat) (hsz : c + sz ≤ P.length)
    (hk : k < sz) (h : (P.drop c).take sz <+: ch.drop f) :
    f + k < ch.length ∧ ch[f + k]? = P[c + k]? := by
  obtain ⟨t, ht⟩ := h
  have hlen : ((P.drop c).take sz).length = sz := slice_length P c sz hsz
  have hl := congrArg List.length ht
  simp only [List.length_append, List.length_drop] at hl
  rw [hlen] at hl
  refine ⟨by omega, ?_⟩
  rw [← List.getElem?_drop, ← ht, List.getElem?_append_left (by omega),
    List.getElem?_take_of_lt hk, List.getElem?_drop]

theorem Stored.bytes (K : Nat → List Byte) (P : List Byte) (b : Nat) (st : Store) (o : Nat) :
    ∀ (fuel c blk f : Nat), f < b → c ≤ P.length → P.length - c < fuel →
      (c < P.length → blk * b + f = o + c) →
      Stored K P b st fuel c blk f →
      ∀ i, c ≤ i → i < P.length →
        ∃ ch, st (K ((o + i) / b)) = some ch ∧ (o + i) % b < ch.length ∧
          ch[(o + i) % b]? = P[i]? := by
  intro fuel
  induction fuel with
  | zero =>
    intro c blk f hf hc hfuel hblk hst i hci hi
    omega
  | succ fuel ih =>
    intro c blk f hf hc hfuel hblk hst i hci hi
    have hlt : c < P.length := by omega
    have hsp := sendLen_spec b f (P.length - c) hf (by omega)
    unfold Stored at hst
    generalize hsz : sendLen b f (P.length - c) = sz at hsp hst
    have hrel := hblk hlt
    by_cases hin : i < c + sz
    · have e1 : o + i = blk * b + (f + (i - c)) := by omega
      have e2 : f + (i - c) < b := by omega
      have e3 : c + (i - c) = i := by omega
      have e4 : i - c < sz := by omega
      have e5 : c + sz ≤ P.length := by omega
      obtain ⟨hq, hr⟩ := div_mod_of_eq e1 e2
      rw [hq, hr]
      obtain ⟨ch, hch, hpre, _, hrest⟩ := hst hlt
      obtain ⟨h1, h2⟩ := prefix_drop_get P ch c sz f (i - c) e5 e4 hpre
      refine ⟨ch, hch, h1, ?_⟩
      rw [h2, e3]
    · have hmul : (blk + 1) * b = blk * b + b := by ring
      have e1 : c + sz < P.length → (blk + 1) * b + 0 = o + (c + sz) := by intro h; omega
      have e2 : c + sz ≤ P.length := by omega
      have e3 : P.length - (c + sz) < fuel := by omega
      have e4 : c + sz ≤ i := by omega
      obtain ⟨ch, hch, hpre, _, hrest⟩ := hst hlt
      exact ih (c + sz) (blk + 1) 0 (Nat.lt_of_le_of_lt (Nat.zero_le f) hf) e2 e3 e1 hrest i e4 hi

/-- C2: on the faithful map store, with distinct keys for the blocks of the inode, for every block
size `B > 0`, offset `≥ 0` and payload `P`, `Write` returns status 0 and afterwards, for every
`i < len(P)`, the chunk under `K(inode, (offset+i) / B)` is longer than `(offset+i) mod B` and
holds `P[i]` at that position.  With `B = 16` on an empty store, `Write(7, 10,
"0123456789ABCDEFGHIJ")` leaves ten zero bytes then "012345" in block 0 and "6789ABCDEFGHIJ" in
block 1. -/
theorem Write_chunk_contents {δ : Type} (sum128 : List Byte → Nat × Nat) (now : Nat → Int)
    (ds : DirService δ) (dsS : δ) (st : Store) (B : Int) (hB : 0 < B) (inode : Nat) (off : Int)
    (hoff : 0 ≤ off) (hoff2 : off < 9223372036854775808) (P : List Byte)
    (hlen : P.length < 9223372036854775808)
    (hkeys : ∀ x y, x < 18446744073709551616 → y < 18446744073709551616 →
      GetID sum128 (⟨ds, mapFS, B⟩ : apiServer Store δ) 1 1 inode x =
        GetID sum128 (⟨ds, mapFS, B⟩ : apiServer Store δ) 1 1 inode y → x = y) :
    (Write sum128 now ⟨ds, mapFS, B⟩ st dsS ⟨inode, off, P⟩).out = .returned ⟨0⟩ none ∧
    (∀ i, i < P.length →
      ∃ ch, (Write sum128 now ⟨ds, mapFS, B⟩ st dsS ⟨inode, off, P⟩).fs
          (GetID sum128 (⟨ds, mapFS, B⟩ : apiServer Store δ) 1 1 inode
            ((off + (i : Int)) / B).toNat) = some ch ∧
        ((off + (i : Int)) % B).toNat < ch.length ∧
        ch[((off + (i : Int)) % B).toNat]? = P[i]?) ∧
    (Write wordsDigest clock0 (mapServer 16) emptyStore () ⟨7, 10, payload20⟩).fs (keyOf 7 0) =
      some [0, 0, 0, 0, 0, 0, 0, 0, 0, 0, 48, 49, 50, 51, 52, 53] ∧
    (Write wordsDigest clock0 (mapServer 16) emptyStore () ⟨7, 10, payload20⟩).fs (keyOf 7 1) =
      some [54, 55, 56, 57, 65, 66, 67, 68, 69, 70, 71, 72, 73, 74] := by
  obtain ⟨o, rfl⟩ := Int.eq_ofNat_of_zero_le hoff
  obtain ⟨b, rfl⟩ := Int.eq_ofNat_of_zero_le (le_of_lt hB)
  have hb : 0 < b := by omega
  have ho : o < 9223372036854775808 := by omega
  have hle : o / b ≤ o := Nat.div_le_self o b
  have hwrap : o / b + (P.length - 0) < 18446744073709551616 := by omega
  have hrel : 0 < P.length → o / b * b + o % b = o + 0 := by
    intro _
    have := Nat.div_add_mod o b
    rw [mul_comm]
    omega
  rw [Write_eq_loop_nat sum128 now _ st dsS inode P o b hb rfl ho]
  refine ⟨(Write.loop_map_frame sum128 now ds b inode o P (P.length + 1) 0 (o / b) (o % b) st dsS
    [] (Nat.mod_lt o hb) (Nat.zero_le _) (by omega) hwrap).1, ?_, by decide, by decide⟩
  intro i hi
  have hst := Write.loop_map_stored sum128 now ds b inode o P hkeys (P.length + 1) 0 (o / b)
    (o % b) st dsS [] (Nat.mod_lt o hb) (Nat.zero_le _) (by omega) hwrap
  have h := Stored.bytes _ P b _ o (P.length + 1) 0 (o / b) (o % b) (Nat.mod_lt o hb)
    (Nat.zero_le _) (by omega) hrel hst i (Nat.zero_le _) hi
  have e1 : (((o : Int) + (i : Int)) / (b : Int)).toNat = (o + i) / b := by
    have : ((o : Int) + (i : Int)) / (b : Int) = (((o + i) / b : Nat) : Int) := by
      rw [Int.natCast_div, Nat.cast_add]
    rw [this, Int.toNat_ofNat]
  have e2 : (((o : Int) + (i : Int)) % (b : Int)).toNat = (o + i) % b := by
    have : ((o : Int) + (i : Int)) % (b : Int) = (((o + i) % b : Nat) : Int) := by
      rw [Int.natCast_mod, Nat.cast_add]
    rw [this, Int.toNat_ofNat]
  rw [e1, e2]
  exact h

theorem Write_chunk_contents_witness :
    ∃ ch, (Write wordsDigest clock0 (mapServer 16) emptyStore () ⟨7, 10, payload20⟩).fs
        (GetID wordsDigest (mapServer 16) 1 1 7 (((10 : Int) + ((7 : Nat) : Int)) / 16).toNat) =
        some ch ∧
      (((10 : Int) + ((7 : Nat) : Int)) % 16).toNat < ch.length ∧
      ch[(((10 : Int) + ((7 : Nat) : Int)) % 16).toNat]? = payload20[7]? :=
  (Write_chunk_contents wordsDigest clock0 nullDS () emptyStore 16 (by decide) 7 10 (by decide)
    (by decide) payload20 (by decide)
    (fun x y hx hy h => wordsDigest_keys _ 7 x y hx hy h)).2.1 7 (by decide)

/-! ### Reading back the chunks of a write -/

theorem sliceFrom_eq (xs : List Byte) (c : Nat) (h : c ≤ xs.length) :
    sliceFrom xs (c : Int) = some (xs.drop c) := by
  unfold sliceFrom
  have h1 : (0 : Int) ≤ c ∧ (c : Int) ≤ xs.length := by omega
  simp [h1]

/-- When the cursor has reached the requested size the read loop returns its buffer. -/
theorem Read.loop_at_end {σ δ : Type} (sum128 : List Byte → Nat × Nat) (s : apiServer σ δ)
    (r : ReadRequest) (dsS : δ) (fuel : Nat) (cur : Int) (blk : Nat) (fo : Int)
    (data : List Byte) (fsS : σ) (tr : List Event) (h : ¬ cur < r.Size) :
    Read.loop sum128 s r dsS (fuel + 1) cur blk fo data fsS tr =
      ⟨.returned ⟨r.Inode, data⟩ none, fsS, dsS, tr⟩ := by
  rw [Read.loop, if_neg h]

/-- One iteration of the read loop in which `GetChunk` returns a non-empty chunk that reaches
the intra-block offset. -/
theorem Read.loop_iter {σ δ : Type} (sum128 : List Byte → Nat × Nat) (s : apiServer σ δ)
    (r : ReadRequest) (dsS : δ) (fuel c blk f : Nat) (data : List Byte) (fsS fs1 : σ)
    (tr : List Event) (ch : List Byte)
    (hget : s.fs.GetChunk fsS (GetID sum128 s 1 1 r.Inode blk) = (fs1, ch, none))
    (hc : (c : Int) < r.Size) (hne : ch.length ≠ 0) (hdata : c ≤ data.length)
    (hf : f ≤ ch.length) :
    Read.loop sum128 s r dsS (fuel + 1) (c : Int) blk (f : Int) data fsS tr =
      if (ch.length : Int) < s.blocksize then
        ⟨.returned ⟨r.Inode, data.take c ++ copy (data.drop c) (ch.drop f)⟩ none, fs1, dsS,
          tr ++ [Event.GetChunk (GetID sum128 s 1 1 r.Inode blk) ch none]⟩
      else
        Read.loop sum128 s r dsS fuel (((c + ch.length : Nat)) : Int)
          ((blk + 1) % 18446744073709551616) ((0 : Nat) : Int)
          (data.take c ++ copy (data.drop c) (ch.drop f)) fs1
          (tr ++ [Event.GetChunk (GetID sum128 s 1 1 r.Inode blk) ch none]) := by
  rw [Read.loop, if_pos hc]
  simp only [hget, hne, if_false, sliceFrom_eq data c hdata, sliceFrom_eq ch f hf,
    Int.toNat_ofNat, Nat.cast_add, Nat.cast_zero]

theorem copy_replicate (k : Nat) (src : List Byte) :
    copy (List.replicate k 0) src = src.take k ++ List.replicate (k - src.length) 0 := by
  simp [copy]

theorem take_buffer (P : List Byte) (c k : Nat) (hc : c ≤ P.length) :
    (P.take c ++ List.replicate k (0 : Byte)).take c = P.take c := by
  rw [List.take_append_of_le_length (by simp; omega), List.take_take]
  simp

theorem drop_buffer (P : List Byte) (c k : Nat) (hc : c ≤ P.length) :
    (P.take c ++ List.replicate k (0 : Byte)).drop c = List.replicate k 0 := by
  have : (P.take c).length = c := by simp; omega
  rw [List.drop_append_of_le_length (by omega), List.drop_of_length_le (by omega)]
  simp

theorem mapFS_GetChunk_some (st : Store) (id ch : List Byte) (h : st id = some ch) :
    mapFS.GetChunk st id = (st, ch, none) := by
  simp [mapFS, h]

/-- Reading back what `Stored` describes: when the first block is read from intra-block offset 0,
or the whole remainder lies in the first block, the read loop returns the payload. -/
theorem Read.loop_stored {δ : Type} (sum128 : List Byte → Nat × Nat) (ds : DirService δ)
    (b : Nat) (inode : Nat) (off : Int) (P : List Byte) (st : Store) (dsS : δ) :
    ∀ (wf rf c blk f : Nat) (tr : List Event),
      f < b → c ≤ P.length → P.length - c < wf → P.length - c < rf →
      blk + (P.length - c) < 18446744073709551616 →
      (f = 0 ∨ f + (P.length - c) ≤ b) →
      Stored (GetID sum128 (⟨ds, mapFS, (b : Int)⟩ : apiServer Store δ) 1 1 inode) P b st wf c
        blk f →
      (Read.loop sum128 ⟨ds, mapFS, (b : Int)⟩ ⟨inode, off, (P.length : Int)⟩ dsS rf (c : Int) blk
        (f : Int) (P.take c ++ List.replicate (P.length - c) 0) st tr).out =
        .returned ⟨inode, P⟩ none := by
  intro wf
  induction wf with
  | zero =>
    intro rf c blk f tr hf hc hwf hrf hwrap hcase hst
    omega
  | succ wf ih =>
    intro rf c blk f tr hf hc hwf hrf hwrap hcase hst
    obtain ⟨rf, rfl⟩ : ∃ k, rf = k + 1 := ⟨rf - 1, by omega⟩
    by_cases hlt : c < P.length
    · have hsp := sendLen_spec b f (P.length - c) hf (by omega)
      unfold Stored at hst
      generalize hsz : sendLen b f (P.length - c) = sz at hsp hst
      have e0 : c + sz ≤ P.length := by omega
      have hplen := slice_length P c sz e0
      obtain ⟨ch, hch, ⟨t, ht⟩, hfull, hrest⟩ := hst hlt
      clear hst
      have hl := congrArg List.length ht
      simp only [List.length_append, List.length_drop, hplen] at hl
      have hchlen : sz + t.length + f = ch.length := by omega
      have hne : ch.length ≠ 0 := by omega
      have hfle : f ≤ ch.length := by omega
      have hdl : c ≤ (P.take c ++ List.replicate (P.length - c) (0 : Byte)).length := by
        simp only [List.length_append, List.length_take, List.length_replicate]
        omega
      have hcI : ((c : Nat) : Int) < (⟨inode, off, (P.length : Int)⟩ : ReadRequest).Size := by
        simp only [ReadRequest.Size]
        omega
      rw [Read.loop_iter sum128 _ _ dsS rf c blk f _ st st tr ch
        (mapFS_GetChunk_some st _ ch hch) hcI hne hdl hfle]
      rw [take_buffer P c _ hc, drop_buffer P c _ hc, copy_replicate, ← ht]
      by_cases hlast : sz = P.length - c
      · -- the remainder of the payload lies in this block
        have hpay : (P.drop c).take sz = P.drop c := by
          rw [List.take_of_length_le (by simp only [List.length_drop]; omega)]
        have h1 : (P.drop c ++ t).take (P.length - c) = P.drop c := by
          rw [List.take_append_of_le_length (by simp only [List.length_drop]; omega),
            List.take_of_length_le (by simp only [List.length_drop]; omega)]
        have h2 : P.length - c - (P.drop c ++ t).length = 0 := by
          simp only [List.length_append, List.length_drop]
          omega
        rw [hpay, h1, h2, List.replicate_zero, List.append_nil, List.take_append_drop]
        split_ifs
        · rfl
        · obtain ⟨rf, rfl⟩ : ∃ k, rf = k + 1 := ⟨rf - 1, by omega⟩
          rw [Read.loop_at_end]
          simp only [ReadRequest.Size]
          omega
      · -- this block is sent whole, from intra-block offset 0
        have hf0 : f = 0 := by omega
        have hszb : sz = b := by omega
        have hchb := hfull hf0 hszb
        have ht0 : t = [] := by
          apply List.eq_nil_of_length_eq_zero
          omega
        subst ht0
        have hnot : ¬ ((ch.length : Int) < ((b : Nat) : Int)) := by omega
        simp only [apiServer.blocksize]
        rw [if_neg hnot]
        have hblk1 : (blk + 1) % 18446744073709551616 = blk + 1 := by omega
        have h1 : ((P.drop c).take sz ++ []).take (P.length - c) = (P.drop c).take sz := by
          rw [List.append_nil, List.take_of_length_le (by omega)]
        have h2 : P.length - c - ((P.drop c).take sz ++ []).length = P.length - (c + sz) := by
          rw [List.append_nil, hplen]
          omega
        have h3 : P.take c ++ ((P.drop c).take sz ++ List.replicate (P.length - (c + sz)) 0) =
            P.take (c + sz) ++ List.replicate (P.length - (c + sz)) 0 := by
          rw [List.take_add, List.append_assoc]
        have h4 : c + ch.length = c + sz := by omega
        rw [h1, h2, h3, h4, hblk1]
        exact ih rf (c + sz) (blk + 1) 0 _ (by omega) e0 (by omega) (by omega) (by omega)
          (Or.inl rfl) hrest
    · have hcn : c = P.length := by omega
      rw [Read.loop_at_end]
      · subst hcn
        simp
      · simp only [ReadRequest.Size]
        omega

/-! ### Round trip for aligned or single-block writes -/

theorem sendLen_full (b rem : Nat) (h : b ≤ rem) : sendLen b 0 rem = b := by
  unfold sendLen
  split <;> omega

/-- A write of exactly two blocks at an aligned position: two `WriteChunk` calls, each followed by
its `Update`, and no `GetChunk`. -/
theorem Write.loop_two_blocks {δ : Type} (sum128 : List Byte → Nat × Nat) (now : Nat → Int)
    (ds : DirService δ) (b : Nat) (hb : 0 < b) (inode : Nat) (off : Int) (P : List Byte)
    (hP : P.length = b + b) (fuel blk : Nat) (st : Store) (dsS : δ) :
    (Write.loop sum128 now ⟨ds, mapFS, (b : Int)⟩ ⟨inode, off, P⟩ (fuel + 3) ((0 : Nat) : Int) blk
      ((0 : Nat) : Int) st dsS []).trace =
      [Event.WriteChunk (GetID sum128 (⟨ds, mapFS, (b : Int)⟩ : apiServer Store δ) 1 1 inode blk)
          (P.take b) none,
        Event.Update inode blk (toUint64 (b : Int)) b (now 1),
        Event.WriteChunk (GetID sum128 (⟨ds, mapFS, (b : Int)⟩ : apiServer Store δ) 1 1 inode
          ((blk + 1) % 18446744073709551616)) (P.drop b) none,
        Event.Update inode ((blk + 1) % 18446744073709551616) (toUint64 (b : Int)) b (now 3)] ∧
    (Write.loop sum128 now ⟨ds, mapFS, (b : Int)⟩ ⟨inode, off, P⟩ (fuel + 3) ((0 : Nat) : Int) blk
      ((0 : Nat) : Int) st dsS []).fs =
      (st.put (GetID sum128 (⟨ds, mapFS, (b : Int)⟩ : apiServer Store δ) 1 1 inode blk)
        (P.take b)).put
        (GetID sum128 (⟨ds, mapFS, (b : Int)⟩ : apiServer Store δ) 1 1 inode
          ((blk + 1) % 18446744073709551616)) (P.drop b) := by
  have hw : ∀ (st : Store) id buf, mapFS.WriteChunk st id buf = (st.put id buf, none) :=
    fun _ _ _ => rfl
  have h1 : sendLen b 0 (P.length - 0) = b := sendLen_full b _ (by omega)
  have h2 : sendLen b 0 (P.length - (0 + b)) = b := sendLen_full b _ (by omega)
  have hnr : ¬ (0 < 0 ∨ b < b) := by omega
  have hp1 : (P.drop 0).take b = P.take b := by simp
  have hp2 : (P.drop (0 + b)).take b = P.drop b := by
    rw [Nat.zero_add, List.take_of_length_le (by simp only [List.length_drop]; omega)]
  have hl1 : (P.take b).length = b := by simp; omega
  have hl2 : (P.drop b).length = b := by simp; omega
  rw [Write.loop_succ sum128 now _ _ b 0 0 rfl hb (by simp only []; omega)]
  simp only [h1, hnr, if_false, hw, hp1]
  rw [Write.loop_succ sum128 now _ _ b 0 (0 + b) rfl hb (by simp only []; omega)]
  simp only [h2, hnr, if_false, hw, hp2]
  rw [Write.loop_done sum128 now _ _ _ _ _ _ _ _ _ (by simp only []; omega)]
  simp [hl1, hl2]

/-- Round trip on the faithful map store when the write starts on a block boundary or lies within
one block. -/
theorem round_trip_core {δ : Type} (sum128 : List Byte → Nat × Nat) (now : Nat → Int)
    (ds : DirService δ) (dsS : δ) (st : Store) (B : Int) (hB : 0 < B) (inode : Nat) (off : Int)
    (hoff : 0 ≤ off) (hoff2 : off < 9223372036854775808) (P : List Byte)
    (hlen : P.length < 9223372036854775808)
    (hkeys : ∀ x y, x < 18446744073709551616 → y < 18446744073709551616 →
      GetID sum128 (⟨ds, mapFS, B⟩ : apiServer Store δ) 1 1 inode x =
        GetID sum128 (⟨ds, mapFS, B⟩ : apiServer Store δ) 1 1 inode y → x = y)
    (hcase : off % B = 0 ∨ off % B + (P.length : Int) ≤ B) :
    (Write sum128 now ⟨ds, mapFS, B⟩ st dsS ⟨inode, off, P⟩).out = .returned ⟨0⟩ none ∧
    (Read sum128 ⟨ds, mapFS, B⟩ (Write sum128 now ⟨ds, mapFS, B⟩ st dsS ⟨inode, off, P⟩).fs
      (Write sum128 now ⟨ds, mapFS, B⟩ st dsS ⟨inode, off, P⟩).ds
      ⟨inode, off, (P.length : Int)⟩).out = .returned ⟨inode, P⟩ none := by
  obtain ⟨o, rfl⟩ := Int.eq_ofNat_of_zero_le hoff
  obtain ⟨b, rfl⟩ := Int.eq_ofNat_of_zero_le (le_of_lt hB)
  have hb : 0 < b := by omega
  have ho : o < 9223372036854775808 := by omega
  have hle : o / b ≤ o := Nat.div_le_self o b
  have hwrap : o / b + (P.length - 0) < 18446744073709551616 := by omega
  have hmod : ((o : Int) % (b : Int)) = ((o % b : Nat) : Int) := by rw [Int.natCast_mod]
  rw [hmod] at hcase
  have hcase' : o % b = 0 ∨ o % b + (P.length - 0) ≤ b := by omega
  rw [Write_eq_loop_nat sum128 now _ st dsS inode P o b hb rfl ho]
  refine ⟨(Write.loop_map_frame sum128 now ds b inode o P (P.length + 1) 0 (o / b) (o % b) st dsS
    [] (Nat.mod_lt o hb) (Nat.zero_le _) (by omega) hwrap).1, ?_⟩
  have hst := Write.loop_map_stored sum128 now ds b inode o P hkeys (P.length + 1) 0 (o / b)
    (o % b) st dsS [] (Nat.mod_lt o hb) (Nat.zero_le _) (by omega) hwrap
  rw [Read_eq_loop_nat sum128 _ _ _ inode P.length o b hb rfl ho]
  have h := Read.loop_stored sum128 ds b inode o P _
    (Write.loop sum128 now ⟨ds, mapFS, (b : Int)⟩ ⟨inode, (o : Int), P⟩ (P.length + 1)
      ((0 : Nat) : Int) (o / b) ((o % b : Nat) : Int) st dsS []).ds
    (P.length + 1) (P.length + 1) 0 (o / b) (o % b) [] (Nat.mod_lt o hb) (Nat.zero_le _)
    (by omega) (by omega) hwrap hcase' hst
  simpa using h

/-- C10: on the faithful map store, with distinct keys for the blocks of the inode, when the
offset is a multiple of the block size or the write lies within one block, `Write` returns
status 0 and the `Read` of the same range then returns exactly the payload.  With `B = 64 KiB` a
128 KiB write at offset 0 makes exactly two `WriteChunk` calls, for blocks 0 and 1 with the two
halves of the payload, and reads back unchanged; and `Write(7, 10, "hello")` on an empty store
makes `Read(7, 0, 15)` return ten zero bytes followed by "hello". -/
theorem Write_Read_round_trip {δ : Type} (sum128 : List Byte → Nat × Nat) (now : Nat → Int)
    (ds : DirService δ) (dsS : δ) (st : Store) (B : Int) (hB : 0 < B) (inode : Nat) (off : Int)
    (hoff : 0 ≤ off) (hoff2 : off < 9223372036854775808) (P : List Byte)
    (hlen : P.length < 9223372036854775808)
    (hkeys : ∀ x y, x < 18446744073709551616 → y < 18446744073709551616 →
      GetID sum128 (⟨ds, mapFS, B⟩ : apiServer Store δ) 1 1 inode x =
        GetID sum128 (⟨ds, mapFS, B⟩ : apiServer Store δ) 1 1 inode y → x = y)
    (hcase : off % B = 0 ∨ off % B + (P.length : Int) ≤ B) :
    (Write sum128 now ⟨ds, mapFS, B⟩ st dsS ⟨inode, off, P⟩).out = .returned ⟨0⟩ none ∧
    (Read sum128 ⟨ds, mapFS, B⟩ (Write sum128 now ⟨ds, mapFS, B⟩ st dsS ⟨inode, off, P⟩).fs
      (Write sum128 now ⟨ds, mapFS, B⟩ st dsS ⟨inode, off, P⟩).ds
      ⟨inode, off, (P.length : Int)⟩).out = .returned ⟨inode, P⟩ none ∧
    (∀ A : List Byte, A.length = 131072 →
      (Write sum128 now ⟨ds, mapFS, 65536⟩ st dsS ⟨inode, 0, A⟩).trace =
        [Event.WriteChunk (GetID sum128 (⟨ds, mapFS, 65536⟩ : apiServer Store δ) 1 1 inode 0)
            (A.take 65536) none,
          Event.Update inode 0 65536 65536 (now 1),
          Event.WriteChunk (GetID sum128 (⟨ds, mapFS, 65536⟩ : apiServer Store δ) 1 1 inode 1)
            (A.drop 65536) none,
          Event.Update inode 1 65536 65536 (now 3)] ∧
      (Write sum128 now ⟨ds, mapFS, 65536⟩ st dsS ⟨inode, 0, A⟩).fs =
        (st.put (GetID sum128 (⟨ds, mapFS, 65536⟩ : apiServer Store δ) 1 1 inode 0)
          (A.take 65536)).put
          (GetID sum128 (⟨ds, mapFS, 65536⟩ : apiServer Store δ) 1 1 inode 1) (A.drop 65536) ∧
      (Read sum128 ⟨ds, mapFS, 65536⟩
        (Write sum128 now ⟨ds, mapFS, 65536⟩ st dsS ⟨inode, 0, A⟩).fs
        (Write sum128 now ⟨ds, mapFS, 65536⟩ st dsS ⟨inode, 0, A⟩).ds
        ⟨inode, 0, 131072⟩).out = .returned ⟨inode, A⟩ none) ∧
    (Read wordsDigest (mapServer 65536)
      (Write wordsDigest clock0 (mapServer 65536) emptyStore () ⟨7, 10, hello⟩).fs ()
      ⟨7, 0, 15⟩).out =
      .returned ⟨7, [0, 0, 0, 0, 0, 0, 0, 0, 0, 0, 104, 101, 108, 108, 111]⟩ none := by
  refine ⟨(round_trip_core sum128 now ds dsS st B hB inode off hoff hoff2 P hlen hkeys hcase).1,
    (round_trip_core sum128 now ds dsS st B hB inode off hoff hoff2 P hlen hkeys hcase).2,
    ?_, by decide⟩
  intro A hA
  have hk : ∀ x y, x < 18446744073709551616 → y < 18446744073709551616 →
      GetID sum128 (⟨ds, mapFS, 65536⟩ : apiServer Store δ) 1 1 inode x =
        GetID sum128 (⟨ds, mapFS, 65536⟩ : apiServer Store δ) 1 1 inode y → x = y :=
    fun x y hx hy h => hkeys x y hx hy h
  have hrt := (round_trip_core sum128 now ds dsS st 65536 (by decide) inode 0 (by decide)
    (by decide) A (by omega) hk (Or.inl (by decide))).2
  rw [hA] at hrt
  have h2 := Write.loop_two_blocks sum128 now ds 65536 (by decide) inode 0 A (by omega)
    (A.length - 2) 0 st dsS
  have hfuel : A.length - 2 + 3 = A.length + 1 := by omega
  rw [hfuel] at h2
  have heq := Write_eq_loop_nat sum128 now (⟨ds, mapFS, 65536⟩ : apiServer Store δ) st dsS inode
    A 0 65536 (by decide) rfl (by decide)
  have hu : toUint64 (65536 : Int) = 65536 := by decide
  have h1m : (0 + 1) % 18446744073709551616 = 1 := by decide
  simp only [Nat.zero_div, Nat.zero_mod, Nat.cast_ofNat, Nat.cast_zero] at heq h2
  rw [hu, h1m] at h2
  rw [heq]
  exact ⟨h2.1, h2.2, by rw [← heq]; exact hrt⟩

theorem Write_Read_round_trip_witness :
    (Read wordsDigest ⟨nullDS, mapFS, 16⟩
      (Write wordsDigest clock0 ⟨nullDS, mapFS, 16⟩ emptyStore () ⟨7, 16, payload20⟩).fs
      (Write wordsDigest clock0 ⟨nullDS, mapFS, 16⟩ emptyStore () ⟨7, 16, payload20⟩).ds
      ⟨7, 16, (payload20.length : Int)⟩).out = .returned ⟨7, payload20⟩ none :=
  (Write_Read_round_trip wordsDigest clock0 nullDS () emptyStore 16 (by decide) 7 16 (by decide)
    (by decide) payload20 (by decide) (fun x y hx hy h => wordsDigest_keys _ 7 x y hx hy h)
    (Or.inl (by decide))).2.1

/-! ### Write aborted by a failed WriteChunk -/

theorem writesOf_append (a b : List Event) : writesOf (a ++ b) = writesOf a ++ writesOf b := by
  simp only [writesOf, List.filterMap_append]

theorem failedWritesOf_append (a b : List Event) :
    failedWritesOf (a ++ b) = failedWritesOf a ++ failedWritesOf b := by
  simp only [failedWritesOf, List.filterMap_append]

theorem updatesOf_append (a b : List Event) :
    updatesOf (a ++ b) = updatesOf a ++ updatesOf b := by
  simp only [updatesOf, List.filterMap_append]

theorem failedWritesOf_mem {tr : List Event} {id d : List Byte} {e : Error}
    (h : Event.WriteChunk id d (some e) ∈ tr) : failedWritesOf tr ≠ [] := by
  intro hnil
  have : (id, d, e) ∈ failedWritesOf tr := by
    unfold failedWritesOf
    rw [List.mem_filterMap]
    exact ⟨_, h, rfl⟩
  rw [hnil] at this
  simp at this

theorem faultyFS_GetChunk_store (fault : Nat → Option Error) (st : Store × Nat)
    (id : List Byte) : ((faultyFS fault).GetChunk st id).1.1 = st.1 := by
  unfold faultyFS
  dsimp only
  split
  · rfl
  · split <;> rfl

theorem faultyFS_WriteChunk_store (fault : Nat → Option Error) (st : Store × Nat)
    (id d : List Byte) :
    (((faultyFS fault).WriteChunk st id d).2 = none →
      ((faultyFS fault).WriteChunk st id d).1.1 = st.1.put id d) ∧
    (∀ e, ((faultyFS fault).WriteChunk st id d).2 = some e →
      ((faultyFS fault).WriteChunk st id d).1.1 = st.1) := by
  unfold faultyFS
  dsimp only
  split <;> simp

/-- The read-modify-write step makes no `WriteChunk` or `Update` call and leaves the contents of
the fault-injecting store as they were. -/
theorem Write.prepare_faulty {δ : Type} (fault : Nat → Option Error) (ds : DirService δ)
    (B : Int) (id : List Byte) (fo sz : Int) (payload : List Byte) (st : Store × Nat)
    (tr : List Event) :
    (Write.prepare (⟨ds, faultyFS fault, B⟩ : apiServer (Store × Nat) δ) id fo sz payload st
      tr).2.1.1 = st.1 ∧
    writesOf (Write.prepare (⟨ds, faultyFS fault, B⟩ : apiServer (Store × Nat) δ) id fo sz
      payload st tr).2.2 = writesOf tr ∧
    failedWritesOf (Write.prepare (⟨ds, faultyFS fault, B⟩ : apiServer (Store × Nat) δ) id fo sz
      payload st tr).2.2 = failedWritesOf tr ∧
    updatesOf (Write.prepare (⟨ds, faultyFS fault, B⟩ : apiServer (Store × Nat) δ) id fo sz
      payload st tr).2.2 = updatesOf tr := by
  unfold Write.prepare
  split
  · split
    · exact ⟨rfl, rfl, rfl, rfl⟩
    · dsimp only
      split <;>
        simp [writesOf, failedWritesOf, updatesOf, List.filterMap_append,
          faultyFS_GetChunk_store]
  · exact ⟨rfl, rfl, rfl, rfl⟩

theorem Write.loop_abortedAt {δ : Type} (sum128 : List Byte → Nat × Nat) (now : Nat → Int)
    (fault : Nat → Option Error) (ds : DirService δ) (B : Int) (r : WriteRequest) :
    ∀ (fuel : Nat) (cur : Int) (blk : Nat) (fo : Int) (st : Store × Nat) (dsS : δ)
      (tr : List Event), failedWritesOf tr = [] →
      (Write.loop sum128 now ⟨ds, faultyFS fault, B⟩ r fuel cur blk fo st dsS tr).abortedAt
        (GetID sum128 (⟨ds, faultyFS fault, B⟩ : apiServer (Store × Nat) δ) 1 1 r.Inode)
        r.Inode (toUint64 B) st.1 tr blk := by
  intro fuel
  induction fuel with
  | zero =>
    intro cur blk fo st dsS tr hno id d e hmem
    exact absurd hno (failedWritesOf_mem hmem)
  | succ fuel ih =>
    intro cur blk fo st dsS tr hno
    unfold Write.loop
    split
    · dsimp only
      split
      · intro id d e hmem
        exact absurd hno (failedWritesOf_mem hmem)
      · rename_i payload _
        have hprep := Write.prepare_faulty fault ds B
          (GetID sum128 (⟨ds, faultyFS fault, B⟩ : apiServer (Store × Nat) δ) 1 1 r.Inode blk)
          fo (if min B ((r.Payload.length : Int) - cur) + fo > B then B - fo
            else min B ((r.Payload.length : Int) - cur)) payload st tr
        split
        · rename_i fs1 tr1 heq
          rw [heq] at hprep
          intro id d e hmem
          exact absurd (hprep.2.2.1.trans hno) (failedWritesOf_mem hmem)
        · rename_i p fo1 fs1 tr1 heq
          rw [heq] at hprep
          obtain ⟨hfs, hwr, hfl, hup⟩ := hprep
          simp only at hfs hwr hfl hup
          have hstore := faultyFS_WriteChunk_store fault fs1
            (GetID sum128 (⟨ds, faultyFS fault, B⟩ : apiServer (Store × Nat) δ) 1 1 r.Inode blk)
            p
          split
          · rename_i err herr
            intro id d e hmem
            simp only [apiServer.fs, herr, List.mem_append, List.mem_singleton] at hmem ⊢
            rcases hmem with hmem | hmem
            · exact absurd (hfl.trans hno) (failedWritesOf_mem hmem)
            · injection hmem with h1 h2 h3
              injection h3 with h3
              subst h1 h2 h3
              refine ⟨[], rfl, by simp, ?_, rfl, ?_, ?_, ?_⟩
              · rw [failedWritesOf_append, hfl, hno]
                rfl
              · rw [writesOf_append, hwr]
                rfl
              · rw [updatesOf_append, hup]
                rfl
              · rw [hstore.2 _ herr, hfs]
                rfl
          · rename_i herr
            simp only [apiServer.fs, apiServer.ds, herr]
            have hno' : failedWritesOf (tr1 ++ [Event.WriteChunk (GetID sum128
                (⟨ds, faultyFS fault, B⟩ : apiServer (Store × Nat) δ) 1 1 r.Inode blk) p none] ++
                [Event.Update r.Inode blk (toUint64 B) p.length (now (tr1 ++
                  [Event.WriteChunk (GetID sum128
                    (⟨ds, faultyFS fault, B⟩ : apiServer (Store × Nat) δ) 1 1 r.Inode blk) p
                    none]).length)]) = [] := by
              rw [failedWritesOf_append, failedWritesOf_append, hfl, hno]
              rfl
            intro id d e hmem
            obtain ⟨cs, h1, h2, h3, h4, h5, h6, h7⟩ := ih _ _ _ _ _ _ hno' id d e hmem
            refine ⟨p :: cs, h1, h2, h3, h4, ?_, ?_, ?_⟩
            · rw [h5, writesOf_append, writesOf_append, hwr, List.append_assoc,
                List.append_assoc]
              rfl
            · rw [h6, updatesOf_append, updatesOf_append, hup, List.append_assoc,
                List.append_assoc]
              rfl
            · rw [h7, hstore.1 herr, hfs]
              rfl
    · intro id d e hmem
      exact absurd hno (failedWritesOf_mem hmem)

theorem Store.putAll_cons (st : Store) (kv : List Byte × List Byte)
    (ws : List (List Byte × List Byte)) :
    st.putAll (kv :: ws) = (st.put kv.1 kv.2).putAll ws := rfl

/-- With distinct keys for distinct blocks and no wrap of the block counter, the buffers put for
consecutive blocks are all retrievable, and no other key is changed. -/
theorem putAll_blockWrites (K : Nat → List Byte)
    (hK : ∀ x y, x < 18446744073709551616 → y < 18446744073709551616 → K x = K y → x = y) :
    ∀ (cs : List (List Byte)) (blk : Nat) (st : Store),
      blk + cs.length < 18446744073709551616 →
      (∀ j c, cs[j]? = some c → st.putAll (blockWrites K blk cs) (K (blk + j)) = some c) ∧
      (∀ key, (∀ j, j < cs.length → key ≠ K (blk + j)) →
        st.putAll (blockWrites K blk cs) key = st key) := by
  intro cs
  induction cs with
  | nil =>
    intro blk st _
    exact ⟨fun j c h => by simp at h, fun _ _ => rfl⟩
  | cons c0 cs ih =>
    intro blk st hlen
    simp only [List.length_cons] at hlen
    have hblk1 : (blk + 1) % 18446744073709551616 = blk + 1 := by omega
    have hbw : blockWrites K blk (c0 :: cs) = (K blk, c0) :: blockWrites K (blk + 1) cs := by
      simp only [blockWrites, hblk1]
    rw [hbw, Store.putAll_cons]
    obtain ⟨hget, hframe⟩ := ih (blk + 1) (st.put (K blk) c0) (by omega)
    constructor
    · intro j c hj
      cases j with
      | zero =>
        simp only [List.getElem?_cons_zero, Option.some.injEq] at hj
        subst hj
        rw [Nat.add_zero, hframe]
        · simp [Store.put]
        · intro j hj heq
          have := hK blk (blk + 1 + j) (by omega) (by omega) heq
          omega
      | succ j =>
        simp only [List.getElem?_cons_succ] at hj
        have := hget j c hj
        rw [Nat.add_assoc, Nat.add_comm 1 j] at this
        exact this
    · intro key hkey
      rw [hframe]
      · have h0 := hkey 0 (by simp)
        rw [Nat.add_zero] at h0
        simp [Store.put, h0]
      · intro j hj
        have := hkey (j + 1) (by simp; omega)
        rw [Nat.add_assoc, Nat.add_comm 1 j]
        exact this

/-- C5: on a chunk store whose calls can fail, whatever the fault schedule, if some `WriteChunk`
call of a `Write` returns an error then: `Write` returns status 1 with that error; the failed
call is the last call of the run and the only failed `WriteChunk`; the successful `WriteChunk`
calls before it stored buffers `cs` under the keys of the consecutive blocks starting at the
first block of the write, `Update` was called exactly once for each of those blocks, in order,
with the length of the buffer stored, and the failed call is for the next block; the store
holds its prior contents with exactly those buffers put, so that (keys of distinct blocks being
distinct) each of them is still retrievable as written. -/
theorem Write_aborts_without_rollback {δ : Type} (sum128 : List Byte → Nat × Nat)
    (now : Nat → Int) (fault : Nat → Option Error) (ds : DirService δ) (dsS : δ) (B : Int)
    (st : Store) (n0 : Nat) (r : WriteRequest) (id d : List Byte) (e : Error)
    (hfail : Event.WriteChunk id d (some e) ∈
      (Write sum128 now ⟨ds, faultyFS fault, B⟩ (st, n0) dsS r).trace) :
    ∃ cs : List (List Byte),
      (Write sum128 now ⟨ds, faultyFS fault, B⟩ (st, n0) dsS r).out =
        .returned ⟨1⟩ (some e) ∧
      (Write sum128 now ⟨ds, faultyFS fault, B⟩ (st, n0) dsS r).trace.getLast? =
        some (Event.WriteChunk id d (some e)) ∧
      failedWritesOf (Write sum128 now ⟨ds, faultyFS fault, B⟩ (st, n0) dsS r).trace =
        [(id, d, e)] ∧
      id = GetID sum128 (⟨ds, faultyFS fault, B⟩ : apiServer (Store × Nat) δ) 1 1 r.Inode
        (blockAfter (toUint64 (r.Offset.tdiv B)) cs.length) ∧
      writesOf (Write sum128 now ⟨ds, faultyFS fault, B⟩ (st, n0) dsS r).trace =
        blockWrites (GetID sum128 (⟨ds, faultyFS fault, B⟩ : apiServer (Store × Nat) δ) 1 1
          r.Inode) (toUint64 (r.Offset.tdiv B)) cs ∧
      updatesOf (Write sum128 now ⟨ds, faultyFS fault, B⟩ (st, n0) dsS r).trace =
        blockUpdates r.Inode (toUint64 B) (toUint64 (r.Offset.tdiv B)) cs ∧
      (Write sum128 now ⟨ds, faultyFS fault, B⟩ (st, n0) dsS r).fs.1 =
        st.putAll (blockWrites (GetID sum128
          (⟨ds, faultyFS fault, B⟩ : apiServer (Store × Nat) δ) 1 1 r.Inode)
          (toUint64 (r.Offset.tdiv B)) cs) ∧
      ((∀ x y, x < 18446744073709551616 → y < 18446744073709551616 →
          GetID sum128 (⟨ds, faultyFS fault, B⟩ : apiServer (Store × Nat) δ) 1 1 r.Inode x =
            GetID sum128 (⟨ds, faultyFS fault, B⟩ : apiServer (Store × Nat) δ) 1 1 r.Inode y →
          x = y) →
        toUint64 (r.Offset.tdiv B) + cs.length < 18446744073709551616 →
        ∀ j c, cs[j]? = some c →
          (Write sum128 now ⟨ds, faultyFS fault, B⟩ (st, n0) dsS r).fs.1
            (GetID sum128 (⟨ds, faultyFS fault, B⟩ : apiServer (Store × Nat) δ) 1 1 r.Inode
              (toUint64 (r.Offset.tdiv B) + j)) = some c) := by
  by_cases hB : B = 0
  · simp [Write, hB] at hfail
  · rw [Write_eq_loop sum128 now _ _ dsS r hB] at hfail ⊢
    obtain ⟨cs, h1, h2, h3, h4, h5, h6, h7⟩ :=
      Write.loop_abortedAt sum128 now fault ds B r _ _ _ _ (st, n0) dsS [] rfl id d e hfail
    refine ⟨cs, h1, h2, h3, h4, ?_, ?_, h7, ?_⟩
    · rw [h5]; rfl
    · rw [h6]; rfl
    · intro hK hlen j c hj
      rw [h7]
      exact (putAll_blockWrites _ hK cs _ st hlen).1 j c hj

theorem Write_aborts_without_rollback_witness :
    ∃ cs : List (List Byte),
      (Write wordsDigest clock0 (faultyServer (failAt 3) 16) (emptyStore, 0) ()
        ⟨7, 10, payload20⟩).out = .returned ⟨1⟩ (some (Error.transport 5)) ∧
      (Write wordsDigest clock0 (faultyServer (failAt 3) 16) (emptyStore, 0) ()
        ⟨7, 10, payload20⟩).trace.getLast? =
        some (Event.WriteChunk (keyOf 7 1)
          [54, 55, 56, 57, 65, 66, 67, 68, 69, 70, 71, 72, 73, 74]
          (some (Error.transport 5))) ∧
      cs.length = 1 :=
  match Write_aborts_without_rollback wordsDigest clock0 (failAt 3) nullDS () 16 emptyStore 0
    ⟨7, 10, payload20⟩ (keyOf 7 1) [54, 55, 56, 57, 65, 66, 67, 68, 69, 70, 71, 72, 73, 74]
    (Error.transport 5) (by decide) with
  | ⟨cs, h1, h2, _, _, h5, _⟩ => ⟨cs, h1, h2, by
      have hw : writesOf (Write wordsDigest clock0 (faultyServer (failAt 3) 16) (emptyStore, 0)
          () ⟨7, 10, payload20⟩).trace =
          [(keyOf 7 0, [0, 0, 0, 0, 0, 0, 0, 0, 0, 0, 48, 49, 50, 51, 52, 53])] := by decide
      have h5' := h5
      rw [show (Write wordsDigest clock0 ⟨nullDS, faultyFS (failAt 3), 16⟩ (emptyStore, 0) ()
        ⟨7, 10, payload20⟩) = (Write wordsDigest clock0 (faultyServer (failAt 3) 16)
        (emptyStore, 0) () ⟨7, 10, payload20⟩) from rfl, hw] at h5'
      cases cs with
      | nil => simp [blockWrites] at h5'
      | cons c cs =>
        cases cs with
        | nil => rfl
        | cons c2 cs => simp [blockWrites] at h5'⟩

/-! ### MkDir -/

/-- C11: for every `MkDir` request that carries an `Attr`, whatever its mode, and every directory
service and ID generator, `MkDir` obtains one inode ID from the generator and calls `Create`
once: the directory state and the response it returns are those of
`Create(r.Parent, inode, r.Name, attr, true)`, where `inode` is the ID just obtained and `attr`
carries that ID, the mode `ModeDir OR` the request's mode - bit 31 set and every bit of the
request's mode kept -, the request's uid and gid, size 0, and atime, mtime, ctime and crtime all
equal to the one timestamp read at the start of the handler. -/
theorem MkDir_marks_directory {φ δ : Type} (now : Nat → Int) (fl : IDGenerator φ)
    (ds : DirCreator δ) (flS : φ) (dsS : δ) (r : MkDirRequest) (a : Attr)
    (ha : r.Attr = some a) :
    ∃ attr : Attr,
      attr.Inode = (fl.GetID flS).2 ∧
      attr.Mode = ModeDir ||| a.Mode ∧
      attr.Mode.testBit 31 = true ∧
      (∀ i, a.Mode.testBit i = true → attr.Mode.testBit i = true) ∧
      attr.Uid = a.Uid ∧ attr.Gid = a.Gid ∧ attr.Size = 0 ∧
      attr.Atime = now 0 ∧ attr.Mtime = now 0 ∧ attr.Ctime = now 0 ∧ attr.Crtime = now 0 ∧
      (MkDir now fl ds flS dsS r).ds =
        (ds.Create dsS r.Parent (fl.GetID flS).2 r.Name attr true).1 ∧
      (MkDir now fl ds flS dsS r).out =
        .returned
          ⟨(ds.Create dsS r.Parent (fl.GetID flS).2 r.Name attr true).2.1,
            (ds.Create dsS r.Parent (fl.GetID flS).2 r.Name attr true).2.2.1⟩
          (ds.Create dsS r.Parent (fl.GetID flS).2 r.Name attr true).2.2.2 ∧
      (MkDir now fl ds flS dsS r).fl = (fl.GetID flS).1 ∧
      (MkDir now fl ds flS dsS r).calls =
        [⟨r.Parent, (fl.GetID flS).2, r.Name, attr, true⟩] ∧
      (MkDir now fl recordingCreator flS [] r).ds =
        [⟨r.Parent, (fl.GetID flS).2, r.Name, attr, true⟩] := by
  refine ⟨⟨(fl.GetID flS).2, now 0, now 0, now 0, now 0, ModeDir ||| a.Mode, 0, a.Uid, a.Gid⟩,
    rfl, rfl, ?_, ?_, rfl, rfl, rfl, rfl, rfl, rfl, rfl, ?_, ?_, ?_, ?_, ?_⟩
  · simp only [Nat.testBit_or]
    have : ModeDir.testBit 31 = true := by decide
    rw [this]
    rfl
  · intro i hi
    simp only [Nat.testBit_or, hi, Bool.or_true]
  · simp [MkDir, ha]
  · simp [MkDir, ha]
  · simp [MkDir, ha]
  · simp [MkDir, ha]
  · simp [MkDir, ha, recordingCreator]

theorem MkDir_marks_directory_witness :
    (MkDir clock0 counterIDs recordingCreator 41 []
      ⟨1, "a", some ⟨0, 0, 0, 0, 0, 493, 0, 7, 8⟩⟩).ds =
      [⟨1, 41, "a", ⟨41, 0, 0, 0, 0, 2147484141, 0, 7, 8⟩, true⟩] :=
  match MkDir_marks_directory clock0 counterIDs recordingCreator 41 []
    ⟨1, "a", some ⟨0, 0, 0, 0, 0, 493, 0, 7, 8⟩⟩ ⟨0, 0, 0, 0, 0, 493, 0, 7, 8⟩ rfl with
  | ⟨attr, h1, h2, _, _, h5, h6, h7, h8, h9, h10, h11, _, _, _, _, h16⟩ => by
    rw [h16]
    obtain ⟨i, t1, t2, t3, t4, m, sz, u, g⟩ := attr
    simp only at h1 h2 h5 h6 h7 h8 h9 h10 h11
    subst h1 h2 h5 h6 h7 h8 h9 h10 h11
    rfl

/-! ### Read-modify-write of a single block -/

theorem sendLen_fits (b f rem : Nat) (h : rem + f ≤ b) : sendLen b f rem = rem := by
  unfold sendLen
  rw [if_pos h]

/-- Bytes of a buffer `chunk` overlaid with `p` at offset `f`. -/
theorem overlay_get (chunk p : List Byte) (f i : Nat) (h : f + p.length ≤ chunk.length) :
    (chunk.take f ++ (p ++ chunk.drop (f + p.length)))[i]? =
      if f ≤ i ∧ i < f + p.length then p[i - f]? else chunk[i]? := by
  have hlt : (chunk.take f).length = f := by
    rw [List.length_take]
    omega
  by_cases h1 : i < f
  · rw [List.getElem?_append_left (by omega), List.getElem?_take_of_lt h1, if_neg (by omega)]
  · rw [List.getElem?_append_right (by omega), hlt]
    by_cases h2 : i < f + p.length
    · rw [List.getElem?_append_left (by omega), if_pos (by omega)]
    · rw [List.getElem?_append_right (by omega), List.getElem?_drop, if_neg (by omega)]
      congr 1
      omega

/-- The buffer the read-modify-write branch stores when `GetChunk` succeeds with a non-empty
chunk `D`: `D`, extended with zero bytes to length `f + len(p)` if shorter, overlaid with `p` at
offset `f`. -/
theorem mergeChunk_present (f : Nat) (p D : List Byte) (hD : D ≠ []) :
    (mergeChunk f p D none).length = max D.length (f + p.length) ∧
    (∀ i, i < p.length → (mergeChunk f p D none)[f + i]? = p[i]?) ∧
    (∀ i, i < D.length → (i < f ∨ f + p.length ≤ i) → (mergeChunk f p D none)[i]? = D[i]?) ∧
    (∀ i, D.length ≤ i → i < f → (mergeChunk f p D none)[i]? = some 0) := by
  have hDl : 0 < D.length := List.length_pos.mpr hD
  have hc : ¬ (0 < f ∧ ((none : Option Error) ≠ none ∨ D.length = 0)) := by
    rintro ⟨_, h | h⟩
    · exact h rfl
    · omega
  unfold mergeChunk
  simp only [hc, if_false, List.length_replicate]
  by_cases hlong : D.length > f + p.length
  · rw [if_pos hlong, overlay_eq D p f (by omega)]
    refine ⟨?_, ?_, ?_, ?_⟩
    · simp only [List.length_append, List.length_take, List.length_drop]
      omega
    · intro i hi
      rw [overlay_get D p f (f + i) (by omega), if_pos (by omega)]
      congr 1
      omega
    · intro i hi hout
      rw [overlay_get D p f i (by omega), if_neg (by omega)]
    · intro i h1 h2
      omega
  · rw [if_neg hlong]
    have hcl : (copy (List.replicate (f + p.length) 0) D).length = f + p.length := by
      rw [copy_length, List.length_replicate]
    have hcopy : copy (List.replicate (f + p.length) 0) D =
        D ++ List.replicate (f + p.length - D.length) 0 := by
      rw [copy_replicate, List.take_of_length_le (by omega)]
    rw [overlay_eq _ p f (by omega)]
    refine ⟨?_, ?_, ?_, ?_⟩
    · simp only [List.length_append, List.length_take, List.length_drop, hcl]
      omega
    · intro i hi
      rw [overlay_get _ p f (f + i) (by omega), if_pos (by omega)]
      congr 1
      omega
    · intro i hi hout
      rw [overlay_get _ p f i (by omega), if_neg (by omega), hcopy,
        List.getElem?_append_left hi]
    · intro i h1 h2
      rw [overlay_get _ p f i (by omega), if_neg (by omega), hcopy,
        List.getElem?_append_right h1, List.getElem?_replicate]
      rw [if_pos (by omega)]

theorem Write.loop_done_pos {σ δ : Type} (sum128 : List Byte → Nat × Nat) (now : Nat → Int)
    (s : apiServer σ δ) (r : WriteRequest) (fuel : Nat) (cur : Int) (blk : Nat) (fo : Int)
    (fsS : σ) (dsS : δ) (tr : List Event) (hfuel : 0 < fuel)
    (h : ¬ cur < (r.Payload.length : Int)) :
    Write.loop sum128 now s r fuel cur blk fo fsS dsS tr =
      ⟨.returned ⟨0⟩ none, fsS, dsS, tr⟩ := by
  obtain ⟨k, rfl⟩ : ∃ k, fuel = k + 1 := ⟨fuel - 1, by omega⟩
  exact Write.loop_done sum128 now s r k cur blk fo fsS dsS tr h

/-- A write confined to one block that goes through the read-modify-write branch, on the
faithful map store holding a non-empty chunk `D` for that block: one `GetChunk`, one
`WriteChunk` of the merged buffer, one `Update` with the length of that buffer. -/
theorem Write.loop_single_rmw {δ : Type} (sum128 : List Byte → Nat × Nat) (now : Nat → Int)
    (ds : DirService δ) (b : Nat) (inode : Nat) (off : Int) (P : List Byte) (f blk : Nat)
    (hP : P ≠ []) (hfit : f + P.length ≤ b) (hrmw : 0 < f ∨ P.length < b) (st : Store)
    (dsS : δ) (D : List Byte)
    (hget : st (GetID sum128 (⟨ds, mapFS, (b : Int)⟩ : apiServer Store δ) 1 1 inode blk) =
      some D) :
    Write.loop sum128 now ⟨ds, mapFS, (b : Int)⟩ ⟨inode, off, P⟩ (P.length + 1) ((0 : Nat) : Int)
      blk (f : Int) st dsS [] =
      ⟨.returned ⟨0⟩ none,
        st.put (GetID sum128 (⟨ds, mapFS, (b : Int)⟩ : apiServer Store δ) 1 1 inode blk)
          (mergeChunk f P D none),
        ds.Update dsS inode blk (toUint64 (b : Int)) (mergeChunk f P D none).length (now 2),
        [Event.GetChunk (GetID sum128 (⟨ds, mapFS, (b : Int)⟩ : apiServer Store δ) 1 1 inode
            blk) D none,
          Event.WriteChunk (GetID sum128 (⟨ds, mapFS, (b : Int)⟩ : apiServer Store δ) 1 1 inode
            blk) (mergeChunk f P D none) none,
          Event.Update inode blk (toUint64 (b : Int)) (mergeChunk f P D none).length
            (now 2)]⟩ := by
  have hn : 0 < P.length := List.length_pos.mpr hP
  have hsz : sendLen b f (P.length - 0) = P.length := sendLen_fits b f _ (by omega)
  have hpay : (P.drop 0).take P.length = P := by
    rw [List.drop_zero, List.take_length]
  have hw : ∀ (st : Store) id buf, mapFS.WriteChunk st id buf = (st.put id buf, none) :=
    fun _ _ _ => rfl
  rw [Write.loop_succ sum128 now _ _ b f 0 rfl (by omega) hn]
  simp only [hsz, hpay, hrmw, if_true, mapFS_GetChunk_some st _ D hget, hw]
  rw [Write.loop_done_pos sum128 now _ _ _ _ _ _ _ _ _ hn (by simp only []; omega)]
  rfl

/-- C12: on the faithful map store, for every block size `B > 0` and every `Write` confined to one
block `b` (`s = offset mod B`, `n = len(payload) > 0`, `s + n ≤ B`, and `s > 0` or `n < B`) whose
`GetChunk` returns a non-empty chunk `D`: `Write` returns status 0; it makes exactly the calls
`GetChunk`, `WriteChunk`, `Update`; the chunk stored under `K(inode, b)` has length
`max(len(D), s + n)`, holds the payload on positions `[s, s+n)`, agrees with `D` on every other
position below `len(D)`, and is zero on `[len(D), s)`; and `Update` is called with that
chunk's length as its byte count. -/
theorem Write_read_modify_write_preserves {δ : Type} (sum128 : List Byte → Nat × Nat)
    (now : Nat → Int) (ds : DirService δ) (dsS : δ) (st : Store) (B : Int) (hB : 0 < B)
    (inode : Nat) (off : Int) (hoff : 0 ≤ off) (hoff2 : off < 9223372036854775808)
    (P : List Byte) (hP : P ≠ []) (hfit : off % B + (P.length : Int) ≤ B)
    (hrmw : 0 < off % B ∨ (P.length : Int) < B) (D : List Byte) (hD : D ≠ [])
    (hget : st (GetID sum128 (⟨ds, mapFS, B⟩ : apiServer Store δ) 1 1 inode (off / B).toNat) =
      some D) :
    ∃ buf : List Byte,
      (Write sum128 now ⟨ds, mapFS, B⟩ st dsS ⟨inode, off, P⟩).out = .returned ⟨0⟩ none ∧
      (Write sum128 now ⟨ds, mapFS, B⟩ st dsS ⟨inode, off, P⟩).fs
        (GetID sum128 (⟨ds, mapFS, B⟩ : apiServer Store δ) 1 1 inode (off / B).toNat) =
        some buf ∧
      buf.length = max D.length ((off % B).toNat + P.length) ∧
      (∀ i, i < P.length → buf[(off % B).toNat + i]? = P[i]?) ∧
      (∀ i, i < D.length → (i < (off % B).toNat ∨ (off % B).toNat + P.length ≤ i) →
        buf[i]? = D[i]?) ∧
      (∀ i, D.length ≤ i → i < (off % B).toNat → buf[i]? = some 0) ∧
      (Write sum128 now ⟨ds, mapFS, B⟩ st dsS ⟨inode, off, P⟩).trace =
        [Event.GetChunk (GetID sum128 (⟨ds, mapFS, B⟩ : apiServer Store δ) 1 1 inode
            (off / B).toNat) D none,
          Event.WriteChunk (GetID sum128 (⟨ds, mapFS, B⟩ : apiServer Store δ) 1 1 inode
            (off / B).toNat) buf none,
          Event.Update inode (off / B).toNat (toUint64 B) buf.length (now 2)] := by
  obtain ⟨o, rfl⟩ := Int.eq_ofNat_of_zero_le hoff
  obtain ⟨b, rfl⟩ := Int.eq_ofNat_of_zero_le (le_of_lt hB)
  have hb : 0 < b := by omega
  have ho : o < 9223372036854775808 := by omega
  have hdiv : ((o : Int) / (b : Int)).toNat = o / b := by
    rw [← Int.natCast_div, Int.toNat_ofNat]
  have hmod : ((o : Int) % (b : Int)).toNat = o % b := by
    rw [← Int.natCast_mod, Int.toNat_ofNat]
  have hmodI : ((o : Int) % (b : Int)) = ((o % b : Nat) : Int) := by rw [Int.natCast_mod]
  rw [hmodI] at hfit hrmw
  rw [hdiv] at hget ⊢
  rw [hmod]
  have hrun := Write.loop_single_rmw sum128 now ds b inode (o : Int) P (o % b) (o / b) hP
    (by omega) (by omega) st dsS D hget
  rw [Write_eq_loop_nat sum128 now _ st dsS inode P o b hb rfl ho, hrun]
  obtain ⟨h1, h2, h3, h4⟩ := mergeChunk_present (o % b) P D hD
  refine ⟨mergeChunk (o % b) P D none, rfl, ?_, h1, h2, h3, h4, rfl⟩
  simp [Store.put]

theorem Write_read_modify_write_preserves_witness :
    ∃ buf : List Byte,
      (Write wordsDigest clock0 ⟨nullDS, mapFS, 16⟩ (emptyStore.put (keyOf 7 0) [1, 2]) ()
        ⟨7, 5, hello⟩).out = .returned ⟨0⟩ none ∧
      (Write wordsDigest clock0 ⟨nullDS, mapFS, 16⟩ (emptyStore.put (keyOf 7 0) [1, 2]) ()
        ⟨7, 5, hello⟩).fs
        (GetID wordsDigest (⟨nullDS, mapFS, 16⟩ : apiServer Store Unit) 1 1 7
          ((5 : Int) / 16).toNat) = some buf ∧
      buf.length = max ([1, 2] : List Byte).length (((5 : Int) % 16).toNat + hello.length) ∧
      (∀ i, i < hello.length → buf[((5 : Int) % 16).toNat + i]? = hello[i]?) ∧
      (∀ i, i < ([1, 2] : List Byte).length →
        (i < ((5 : Int) % 16).toNat ∨ ((5 : Int) % 16).toNat + hello.length ≤ i) →
        buf[i]? = ([1, 2] : List Byte)[i]?) ∧
      (∀ i, ([1, 2] : List Byte).length ≤ i → i < ((5 : Int) % 16).toNat → buf[i]? = some 0) ∧
      (Write wordsDigest clock0 ⟨nullDS, mapFS, 16⟩ (emptyStore.put (keyOf 7 0) [1, 2]) ()
        ⟨7, 5, hello⟩).trace =
        [Event.GetChunk (GetID wordsDigest (⟨nullDS, mapFS, 16⟩ : apiServer Store Unit) 1 1 7
            ((5 : Int) / 16).toNat) [1, 2] none,
          Event.WriteChunk (GetID wordsDigest (⟨nullDS, mapFS, 16⟩ : apiServer Store Unit) 1 1 7
            ((5 : Int) / 16).toNat) buf none,
          Event.Update 7 ((5 : Int) / 16).toNat (toUint64 16) buf.length (clock0 2)] :=
  Write_read_modify_write_preserves wordsDigest clock0 nullDS () (emptyStore.put (keyOf 7 0)
    [1, 2]) 16 (by decide) 7 5 (by decide) (by decide) hello (by decide) (by decide)
    (Or.inl (by decide)) [1, 2] (by decide) (by decide)

/-! ### Negative offsets -/

theorem Write.prepare_trace_extends {σ δ : Type} (s : apiServer σ δ) (id : List Byte)
    (fo sz : Int) (payload : List Byte) (fsS : σ) (tr : List Event) :
    tr <+: (Write.prepare s id fo sz payload fsS tr).2.2 := by
  unfold Write.prepare
  split
  · split
    · exact List.prefix_refl _
    · dsimp only
      split <;> exact List.prefix_append _ _
  · exact List.prefix_refl _

theorem Write.loop_trace_extends {σ δ : Type} (sum128 : List Byte → Nat × Nat)
    (now : Nat → Int) (s : apiServer σ δ) (r : WriteRequest) :
    ∀ (fuel : Nat) (cur : Int) (blk : Nat) (fo : Int) (fsS : σ) (dsS : δ) (tr : List Event),
      tr <+: (Write.loop sum128 now s r fuel cur blk fo fsS dsS tr).trace := by
  intro fuel
  induction fuel with
  | zero =>
    intro cur blk fo fsS dsS tr
    exact List.prefix_refl _
  | succ fuel ih =>
    intro cur blk fo fsS dsS tr
    unfold Write.loop
    split
    · dsimp only
      split
      · exact List.prefix_refl _
      · rename_i payload _
        have hp := Write.prepare_trace_extends s (GetID sum128 s 1 1 r.Inode blk) fo
          (if min s.blocksize ((r.Payload.length : Int) - cur) + fo > s.blocksize
            then s.blocksize - fo else min s.blocksize ((r.Payload.length : Int) - cur))
          payload fsS tr
        split
        · rename_i fs1 tr1 heq
          rw [heq] at hp
          exact hp
        · rename_i p fo1 fs1 tr1 heq
          rw [heq] at hp
          have hp' : tr <+: tr1 := hp
          split
          · exact List.IsPrefix.trans hp' (List.prefix_append _ _)
          · refine List.IsPrefix.trans hp' (List.IsPrefix.trans ?_ (ih _ _ _ _ _ _))
            rw [List.append_assoc]
            exact List.prefix_append _ _
    · exact List.prefix_refl _

/-- The block a negative offset addresses, and the sign of the intra-block offset. -/
theorem negative_start_block (off B : Int) (hB : 0 < B) (hoff : off < 0)
    (hoff2 : -9223372036854775808 ≤ off) :
    (-off < B → toUint64 (off.tdiv B) = 0) ∧
    (B ≤ -off →
      toUint64 (off.tdiv B) = 18446744073709551616 - ((-off) / B).toNat) ∧
    (if off.tmod B ≠ 0 then off - toInt64 (toUint64 (off.tdiv B)) * B else 0) ≤ 0 := by
  obtain ⟨m, hm⟩ : ∃ m : Int, m = -off := ⟨_, rfl⟩
  have hoffm : off = -m := by omega
  have hm0 : 0 ≤ m := by omega
  have hdiv : off.tdiv B = -(m / B) := by
    rw [hoffm, Int.neg_tdiv, Int.tdiv_eq_ediv hm0 (le_of_lt hB)]
  have hq0 : 0 ≤ m / B := Int.ediv_nonneg hm0 (le_of_lt hB)
  have hqle : m / B * B ≤ m := Int.ediv_mul_le m (ne_of_gt hB)
  have hqlt : m < (m / B + 1) * B := Int.lt_ediv_add_one_mul_self m hB
  have hqm : m / B ≤ m := by
    have h1 : m / B * 1 ≤ m / B * B := Int.mul_le_mul_of_nonneg_left (by omega) hq0
    omega
  rw [hdiv, ← hm]
  generalize m / B = q at hq0 hqle hqlt hqm
  refine ⟨?_, ?_, ?_⟩
  · intro hlt
    have hq : q = 0 := by
      by_contra hne
      have h1 : 1 * B ≤ q * B := Int.mul_le_mul_of_nonneg_right (by omega) (le_of_lt hB)
      omega
    subst hq
    decide
  · intro hle
    have hq : 1 ≤ q := by
      by_contra hne
      have hq : q = 0 := by omega
      subst hq
      omega
    unfold toUint64
    omega
  · split_ifs
    · have h64 : toInt64 (toUint64 (-q)) = -q := by
        unfold toInt64 toUint64
        split_ifs <;> omega
      rw [h64]
      have : -q * B = -(q * B) := by ring
      omega
    · exact le_refl _

/-- A read of positive size whose first `GetChunk` reports the block absent: that is its only
call, and it returns an empty response with no error. -/
theorem Read_first_block_absent {σ δ : Type} (sum128 : List Byte → Nat × Nat)
    (s : apiServer σ δ) (fsS : σ) (dsS : δ) (r : ReadRequest) (hB : s.blocksize ≠ 0)
    (hS : 0 < r.Size)
    (habs : (s.fs.GetChunk fsS
      (GetID sum128 s 1 1 r.Inode (toUint64 (r.Offset.tdiv s.blocksize)))).2.2 =
        some Error.ErrNil) :
    (Read sum128 s fsS dsS r).out = .returned ⟨0, []⟩ none ∧
    (Read sum128 s fsS dsS r).fs = (s.fs.GetChunk fsS
      (GetID sum128 s 1 1 r.Inode (toUint64 (r.Offset.tdiv s.blocksize)))).1 ∧
    (Read sum128 s fsS dsS r).trace =
      [Event.GetChunk (GetID sum128 s 1 1 r.Inode (toUint64 (r.Offset.tdiv s.blocksize)))
        (s.fs.GetChunk fsS
          (GetID sum128 s 1 1 r.Inode (toUint64 (r.Offset.tdiv s.blocksize)))).2.1
        (some Error.ErrNil)] := by
  rw [Read_eq_loop sum128 s fsS dsS r hB (le_of_lt hS)]
  unfold Read.loop
  simp only [hS, if_true, habs, List.nil_append, and_self]

/-- A write at a non-positive intra-block offset whose payload has at least a block of bytes
starts with a `WriteChunk` call that sends the first block of the payload, without any
`GetChunk`. -/
theorem Write.loop_first_direct {σ δ : Type} (sum128 : List Byte → Nat × Nat)
    (now : Nat → Int) (s : apiServer σ δ) (r : WriteRequest) (b : Nat)
    (hb : s.blocksize = (b : Int)) (hb0 : 0 < b) (hlen : b ≤ r.Payload.length) (fuel blk : Nat)
    (fo : Int) (hfo : fo ≤ 0) (fsS : σ) (dsS : δ) :
    ∃ rest, (Write.loop sum128 now s r (fuel + 1) 0 blk fo fsS dsS []).trace =
      Event.WriteChunk (GetID sum128 s 1 1 r.Inode blk) (r.Payload.take b)
        (s.fs.WriteChunk fsS (GetID sum128 s 1 1 r.Inode blk) (r.Payload.take b)).2 :: rest := by
  have key : ∀ T : List Event,
      [Event.WriteChunk (GetID sum128 s 1 1 r.Inode blk) (r.Payload.take b)
        (s.fs.WriteChunk fsS (GetID sum128 s 1 1 r.Inode blk) (r.Payload.take b)).2] <+: T →
      ∃ rest, T = Event.WriteChunk (GetID sum128 s 1 1 r.Inode blk) (r.Payload.take b)
        (s.fs.WriteChunk fsS (GetID sum128 s 1 1 r.Inode blk) (r.Payload.take b)).2 :: rest := by
    rintro T ⟨t, rfl⟩
    exact ⟨t, rfl⟩
  apply key
  have hsz : (if min (b : Int) ((r.Payload.length : Int) - 0) + fo > (b : Int)
      then (b : Int) - fo else min (b : Int) ((r.Payload.length : Int) - 0)) = (b : Int) := by
    unfold min
    split_ifs <;> omega
  have hsl : sliceRange r.Payload 0 (0 + (b : Int)) = some (r.Payload.take b) := by
    have := sliceRange_eq r.Payload 0 b (by omega)
    simpa using this
  have hprep : Write.prepare s (GetID sum128 s 1 1 r.Inode blk) fo (b : Int)
      (r.Payload.take b) fsS [] = (some (r.Payload.take b, fo), fsS, []) := by
    unfold Write.prepare
    rw [if_neg (by rw [hb]; omega)]
  unfold Write.loop
  have hc : (0 : Int) < (r.Payload.length : Int) := by omega
  rw [if_pos hc]
  dsimp only
  rw [hb, hsz, hsl]
  dsimp only
  rw [hprep]
  dsimp only
  split
  · exact List.prefix_refl _
  · exact List.IsPrefix.trans (List.prefix_append _ _)
      (Write.loop_trace_extends sum128 now s r _ _ _ _ _ _ _)

/-- C7 (counterexample): with block size 16, requests with a negative offset are not rejected
with an error.  On an empty store `Read(7, -1, 1)` calls `GetChunk` for block 0 and returns an
empty response with no error; with a 1-byte chunk in block 0 the same read fetches it and
panics on `chunk[-1:]`; `Write(7, -1, "hello")` calls `GetChunk` and panics on `chunk[-1:]`; and
`Write(7, -16, sixteen bytes)` returns status 0 after a `WriteChunk` and an `Update` for block
`2^64 - 1`. -/
theorem negative_offset_requests_are_served :
    (Read wordsDigest (mapServer 16) emptyStore () ⟨7, -1, 1⟩).trace =
      [Event.GetChunk (keyOf 7 0) [] (some Error.ErrNil)] ∧
    (Read wordsDigest (mapServer 16) emptyStore () ⟨7, -1, 1⟩).out =
      .returned ⟨0, []⟩ none ∧
    (Read wordsDigest (mapServer 16) (emptyStore.put (keyOf 7 0) [1]) () ⟨7, -1, 1⟩).trace =
      [Event.GetChunk (keyOf 7 0) [1] none] ∧
    (Read wordsDigest (mapServer 16) (emptyStore.put (keyOf 7 0) [1]) () ⟨7, -1, 1⟩).out =
      .panicked ∧
    (Write wordsDigest clock0 (mapServer 16) emptyStore () ⟨7, -1, hello⟩).trace =
      [Event.GetChunk (keyOf 7 0) [] (some Error.ErrNil)] ∧
    (Write wordsDigest clock0 (mapServer 16) emptyStore () ⟨7, -1, hello⟩).out = .panicked ∧
    (Write wordsDigest clock0 (mapServer 16) emptyStore () ⟨7, -16, block16⟩).trace =
      [Event.WriteChunk (keyOf 7 18446744073709551615) block16 none,
        Event.Update 7 18446744073709551615 16 16 0] ∧
    (Write wordsDigest clock0 (mapServer 16) emptyStore () ⟨7, -16, block16⟩).out =
      .returned ⟨0⟩ none := by
  refine ⟨by decide, by decide, by decide, by decide, by decide, by decide, by decide,
    by decide⟩

/-- C7 (amended): a negative offset is not rejected; the handlers go on to address block
`uint64(offset / blocksize)`, which for a negative offset is block 0 when `-offset < B` and the
wrapped index `2^64 - (-offset / B)` otherwise.  For a `Read` whose size is within the
allocation limit `maxAlloc`, and for every `Write`: every error the handler returns is the one
its last chunk-store call returned, so neither produces an error of its own.  A `Read` of
positive size within the allocation limit starts with a `GetChunk` call for that block, and
when the call reports the block absent the read makes no other call and returns an empty
response with no error.  A `Write` whose payload has at least a block of bytes starts with a
`WriteChunk` call for that block, sending the first `B` bytes of the payload. -/
theorem negative_offset_is_served {σ δ : Type} (sum128 : List Byte → Nat × Nat)
    (now : Nat → Int) (s : apiServer σ δ) (fsS : σ) (dsS : δ) (inode : Nat) (off : Int)
    (hB : 0 < s.blocksize) (hoff : off < 0) (hoff2 : -9223372036854775808 ≤ off) :
    (-off < s.blocksize → toUint64 (off.tdiv s.blocksize) = 0) ∧
    (s.blocksize ≤ -off → toUint64 (off.tdiv s.blocksize) =
      18446744073709551616 - ((-off) / s.blocksize).toNat) ∧
    (∀ size, size ≤ (maxAlloc : Int) →
      (Read sum128 s fsS dsS ⟨inode, off, size⟩).errFromGet) ∧
    (∀ size, 0 < size → size ≤ (maxAlloc : Int) →
      ∃ rest, (Read sum128 s fsS dsS ⟨inode, off, size⟩).trace =
        Event.GetChunk (GetID sum128 s 1 1 inode (toUint64 (off.tdiv s.blocksize)))
          (s.fs.GetChunk fsS (GetID sum128 s 1 1 inode (toUint64 (off.tdiv s.blocksize)))).2.1
          (s.fs.GetChunk fsS (GetID sum128 s 1 1 inode (toUint64 (off.tdiv s.blocksize)))).2.2
          :: rest) ∧
    (∀ size, 0 < size → size ≤ (maxAlloc : Int) →
      (s.fs.GetChunk fsS (GetID sum128 s 1 1 inode (toUint64 (off.tdiv s.blocksize)))).2.2 =
        some Error.ErrNil →
      (Read sum128 s fsS dsS ⟨inode, off, size⟩).out = .returned ⟨0, []⟩ none ∧
      (Read sum128 s fsS dsS ⟨inode, off, size⟩).fs =
        (s.fs.GetChunk fsS
          (GetID sum128 s 1 1 inode (toUint64 (off.tdiv s.blocksize)))).1 ∧
      (Read sum128 s fsS dsS ⟨inode, off, size⟩).trace =
        [Event.GetChunk (GetID sum128 s 1 1 inode (toUint64 (off.tdiv s.blocksize)))
          (s.fs.GetChunk fsS
            (GetID sum128 s 1 1 inode (toUint64 (off.tdiv s.blocksize)))).2.1
          (some Error.ErrNil)]) ∧
    (∀ P, (Write sum128 now s fsS dsS ⟨inode, off, P⟩).errFromWrite) ∧
    (∀ P : List Byte, s.blocksize ≤ (P.length : Int) →
      ∃ rest, (Write sum128 now s fsS dsS ⟨inode, off, P⟩).trace =
        Event.WriteChunk (GetID sum128 s 1 1 inode (toUint64 (off.tdiv s.blocksize)))
          (P.take s.blocksize.toNat)
          (s.fs.WriteChunk fsS (GetID sum128 s 1 1 inode (toUint64 (off.tdiv s.blocksize)))
            (P.take s.blocksize.toNat)).2 :: rest) := by
  have hB0 : s.blocksize ≠ 0 := ne_of_gt hB
  obtain ⟨h0, hwrap, hfo⟩ := negative_start_block off s.blocksize hB hoff hoff2
  refine ⟨h0, hwrap, ?_, ?_, ?_, ?_, ?_⟩
  · intro size _
    by_cases hS : 0 ≤ size
    · rw [Read_eq_loop sum128 s fsS dsS _ hB0 hS]
      apply Read.loop_errFromGet
    · intro resp e h
      simp [Read, hB0, makeBytes, hS] at h
  · intro size hS _
    exact Read_first_call sum128 s fsS dsS ⟨inode, off, size⟩ hB0 hS
  · intro size hS _ habs
    exact Read_first_block_absent sum128 s fsS dsS ⟨inode, off, size⟩ hB0 hS habs
  · intro P
    rw [Write_eq_loop sum128 now s fsS dsS _ hB0]
    apply Write.loop_errFromWrite
  · intro P hlen
    obtain ⟨b, hb⟩ := Int.eq_ofNat_of_zero_le (le_of_lt hB)
    have hb0 : 0 < b := by omega
    have hbn : s.blocksize.toNat = b := by omega
    have hlen2 : b ≤ P.length := by omega
    rw [Write_eq_loop sum128 now s fsS dsS _ hB0, hbn]
    exact Write.loop_first_direct sum128 now s ⟨inode, off, P⟩ b hb hb0 hlen2 _ _ _ hfo
      fsS dsS

theorem negative_offset_is_served_witness :
    toUint64 ((-1 : Int).tdiv (mapServer 16).blocksize) = 0 ∧
    ∃ rest, (Read wordsDigest (mapServer 16) emptyStore () ⟨7, -1, 1⟩).trace =
      Event.GetChunk (GetID wordsDigest (mapServer 16) 1 1 7
          (toUint64 ((-1 : Int).tdiv (mapServer 16).blocksize)))
        (mapFS.GetChunk emptyStore (GetID wordsDigest (mapServer 16) 1 1 7
          (toUint64 ((-1 : Int).tdiv (mapServer 16).blocksize)))).2.1
        (mapFS.GetChunk emptyStore (GetID wordsDigest (mapServer 16) 1 1 7
          (toUint64 ((-1 : Int).tdiv (mapServer 16).blocksize)))).2.2
        :: rest :=
  ⟨(negative_offset_is_served wordsDigest clock0 (mapServer 16) emptyStore () 7 (-1)
      (by decide) (by decide) (by decide)).1 (by decide),
    (negative_offset_is_served wordsDigest clock0 (mapServer 16) emptyStore () 7 (-1)
      (by decide) (by decide) (by decide)).2.2.2.1 1 (by decide) (by decide)⟩

end Formic
